import Mathlib

/-!
Verification development for the menu-generation engine of the meal-ordering
web application (`proj2/menu_generation.py` and the plan parser in
`proj2/Flask_app.py`).  Each Python function of the core pipeline is embedded
as an executable Lean definition; the theorems at the end of the file settle
the behavioural claims about the pipeline.

Modelling conventions:
* pandas data frames become lists of row structures;
* machine integers become `Nat`/`Int` (Python ints are unbounded, so no
  wrap-around modelling is needed);
* code that can raise becomes `Except String`; the error payloads follow the
  messages raised by the source;
* `random.sample` and the text-generation backend (`LLM.generate`) are
  parameters of the embedding: they are opaque callables from the point of
  view of the source module.
-/

namespace MenuGen

/-- `MAX_LLM_TRIES = 3` from `menu_generation.py`. -/
def MAX_LLM_TRIES : Nat := 3

/-- `LLM_ATTRIBUTE_ERROR = -1` from `menu_generation.py`. -/
def LLM_ATTRIBUTE_ERROR : Int := -1

/-- `ITEM_CHOICES = 10` from `menu_generation.py`. -/
def ITEM_CHOICES : Nat := 10

/-- `DAYS_OF_WEEK` from `menu_generation.py` (indexed by Python
`date.weekday()`, Monday = 0). -/
def DAYS_OF_WEEK : List String := ["Mon", "Tue", "Wed", "Thu", "Fri", "Sat", "Sun"]

/-- `SYSTEM_TEMPLATE` from `menu_generation.py`. -/
def SYSTEM_TEMPLATE : String :=
  "You are a health and nutrition expert planning meals for a customer based on their preferences. Use only the menu items provided under CSV CONTEXT."

/-- `PROMPT_TEMPLATE` from `menu_generation.py`. -/
def PROMPT_TEMPLATE : String :=
  "Choose a meal for a customer based on their preferences: {preferences}\nMake sure that the item makes sense for {meal}.\nProvide only the itm_id as output. Do not provide names or descriptions.\n\nCSV CONTEXT:\n{context}"

/-- `BREAKFAST_TIME = 1000`. -/
def BREAKFAST_TIME : Int := 1000

/-- `LUNCH_TIME = 1400`. -/
def LUNCH_TIME : Int := 1400

/-- `DINNER_TIME = 2000`. -/
def DINNER_TIME : Int := 2000

/-! ## Decimal rendering and parsing helpers

These model Python's `int(...)` on digit strings and `f"{n}"` rendering of a
non-negative integer.  They are shared by the embeddings of
`format_llm_output`, `update_menu` and `parse_generated_menu`. -/

/-- The decimal digit character for `n` (`n` is taken modulo the usual 0..9
range; values ≥ 9 render as `'9'`, which never occurs in our uses). -/
def digitChar (n : Nat) : Char :=
  match n with
  | 0 => '0' | 1 => '1' | 2 => '2' | 3 => '3' | 4 => '4'
  | 5 => '5' | 6 => '6' | 7 => '7' | 8 => '8' | _ => '9'

/-- Fuelled decimal rendering: with fuel `> n` it renders `n` in the usual
most-significant-first decimal form. -/
def digitsOfAux : Nat → Nat → List Char
  | 0, _ => []
  | fuel + 1, n =>
    if n < 10 then [digitChar n]
    else digitsOfAux fuel (n / 10) ++ [digitChar (n % 10)]

/-- Decimal rendering of a natural number, as produced by Python's
`f"{n}"` for a non-negative int. -/
def digitsOf (n : Nat) : List Char := digitsOfAux (n + 1) n

/-- Decimal rendering of a natural number as a `String`. -/
def natStr (n : Nat) : String := String.mk (digitsOf n)

/-- Python `f"{i}"` for an int: decimal digits with a leading minus sign for
negative values. -/
def intStr (i : Int) : String :=
  if i < 0 then "-" ++ natStr i.natAbs else natStr i.natAbs

/-- Python `int(s)` on a string of decimal digits (the only case the source
ever feeds it): most-significant-first accumulation. -/
def natOfDigits (ds : List Char) : Nat :=
  ds.foldl (fun a c => 10 * a + (c.toNat - 48)) 0

/-- Python `int(s)` for a component of a date string: defined (as `some`)
exactly on non-empty all-digit strings, the canonical `YYYY-MM-DD`
components. -/
def parseNatDigits (l : List Char) : Option Nat :=
  if l ≠ [] ∧ l.all Char.isDigit then some (natOfDigits l) else none

/-! ## `format_llm_output` (Selection Oracle output parser)

The source applies `re.findall(r"(\d+)", output)`, which yields every
maximal run of decimal digits in scan order, and takes the last one:

```python
def format_llm_output(output: str) -> int:
    matches = re.findall(LLM_OUTPUT_MATCH, output)
    if matches:
        try:
            return int(matches[-1])
        except ValueError:
            return LLM_ATTRIBUTE_ERROR
    return LLM_ATTRIBUTE_ERROR
```

`digitRuns` below embeds the `findall`: it returns the maximal digit runs of
a character list, in order.  (`int` on a digit run never raises, so the
`except` branch is dead code in the source.) -/

/-- The maximal runs of decimal digits of `l`, in order, as produced by
`re.findall(r"(\d+)", ...)`. -/
def digitRuns : List Char → List (List Char)
  | [] => []
  | c :: cs =>
    if c.isDigit then
      match cs with
      | [] => [[c]]
      | d :: _ =>
        if d.isDigit then
          match digitRuns cs with
          | r :: rt => (c :: r) :: rt
          | [] => [[c]]
        else [c] :: digitRuns cs
    else digitRuns cs

/-- Embedding of `format_llm_output`. -/
def format_llm_output (output : String) : Int :=
  match (digitRuns output.data).getLast? with
  | some run => (natOfDigits run : Int)
  | none => LLM_ATTRIBUTE_ERROR

/-! ## Data model

`MenuGenerator.__init__` loads two data frames: `menu_items` (all columns of
active `MenuItem` rows) and `restaurants` (`rtr_id, hours` of open
restaurants).  `__get_context` left-merges them on `rtr_id`.

The `hours` column is free text; `filter_closed_restaurants` classifies a
row's value by which branch of the Python it drives, so the embedding keeps
that classification as an inductive:
* `falsy`   — `None` or `""`: `if not hours_json: continue` keeps the row;
* `nan`     — the non-string `NaN` a left merge produces for an item whose
  restaurant has no row: `.strip()` raises `AttributeError`, caught by the
  `except`, row kept;
* `nonJson` — a string whose `strip()` does not start with `'{'`: the
  JSON branch is skipped, row kept;
* `badJson` — a string starting with `'{'` on which `json.loads` (or the
  subsequent list processing) raises: caught by the `except`, row kept;
* `table m` — a parsed JSON object mapping weekday abbreviations to integer
  lists. -/

inductive HoursField where
  | falsy : HoursField
  | nan : HoursField
  | nonJson : HoursField
  | badJson : HoursField
  | table : List (String × List Int) → HoursField
deriving DecidableEq

/-- A row of the merged `menu_items ⋈ restaurants` frame.  `name`,
`description`, `price` and `calories` are carried in their rendered textual
form — they are opaque payload for every function of the core. -/
structure CRow where
  itm_id : Int
  rtr_id : Int
  name : String
  description : String
  price : String
  calories : String
  allergens : Option String
  hours : HoursField
deriving DecidableEq

/-- A row of `self.menu_items`. -/
structure ItemRow where
  itm_id : Int
  rtr_id : Int
  name : String
  description : String
  price : String
  calories : String
  allergens : Option String
deriving DecidableEq

/-- A row of `self.restaurants`. -/
structure RtrRow where
  rtr_id : Int
  hours : HoursField
deriving DecidableEq

/-- `pd.merge(self.menu_items, self.restaurants, on="rtr_id", how="left")`:
every item row is kept; an item with no matching restaurant row gets `NaN`
hours; an item with matching rows is duplicated once per match. -/
def mergeItemsRestaurants (items : List ItemRow) (rtrs : List RtrRow) : List CRow :=
  items.flatMap fun it =>
    match rtrs.filter (fun rr => rr.rtr_id == it.rtr_id) with
    | [] => [⟨it.itm_id, it.rtr_id, it.name, it.description, it.price,
              it.calories, it.allergens, .nan⟩]
    | ms => ms.map fun rr =>
        ⟨it.itm_id, it.rtr_id, it.name, it.description, it.price,
         it.calories, it.allergens, rr.hours⟩

/-! ## `filter_closed_restaurants` (Candidate Filter, open-hours test)

```python
for index, rows in restaurant.iterrows():
    try:
        hours_json = rows["hours"]
        if not hours_json: continue
        if hours_json.strip().startswith('{'):
            opening_times = json.loads(hours_json).get(weekday, [])
            if not opening_times:
                restaurant = restaurant[restaurant["rtr_id"] != rows["rtr_id"]]
                continue
            if len(opening_times) % 2 == 1:
                restaurant = restaurant[restaurant["rtr_id"] != rows["rtr_id"]]
            elif len(opening_times) >= 2:
                is_open = False
                for x in range(int(len(opening_times) / 2)):
                    if opening_times[x*2] <= time and opening_times[x*2+1] >= time:
                        is_open = True
                if not is_open:
                    restaurant = restaurant[restaurant["rtr_id"] != rows["rtr_id"]]
            else:
                restaurant = restaurant[restaurant["rtr_id"] != rows["rtr_id"]]
    except Exception as e:
        pass
return restaurant
```

The loop iterates the *original* frame (`iterrows` snapshots it), and each
removal drops every row sharing the offending row's `rtr_id` from the result.
Hence the returned frame consists of exactly those rows whose `rtr_id` never
received a "closed" verdict from any row of the input. -/

/-- The inner pair scan: `opening_times[x*2] <= time and
opening_times[x*2+1] >= time` for some `x < len/2`. -/
def isOpenAt (opening_times : List Int) (t : Int) : Bool :=
  (List.range (opening_times.length / 2)).any fun x =>
    decide (opening_times.getD (2 * x) 0 ≤ t) &&
    decide (t ≤ opening_times.getD (2 * x + 1) 0)

/-- Whether one row's `hours` value causes its `rtr_id` to be removed
("closed" verdict).  Rows whose hours are absent or unparseable at the whole
field level never produce a removal. -/
def closedVerdict (h : HoursField) (weekday : String) (t : Int) : Bool :=
  match h with
  | .table m =>
    let opening_times := (m.lookup weekday).getD []
    if opening_times = [] then true
    else if opening_times.length % 2 = 1 then true
    else if 2 ≤ opening_times.length then !(isOpenAt opening_times t)
    else true
  | _ => false

/-- Embedding of `filter_closed_restaurants`: a row survives iff no row of
the input frame with its `rtr_id` was judged closed. -/
def filter_closed_restaurants (restaurant : List CRow) (weekday : String) (t : Int) :
    List CRow :=
  restaurant.filter fun r =>
    !(restaurant.any fun r' =>
        r'.rtr_id == r.rtr_id && closedVerdict r'.hours weekday t)

/-! ## `filter_allergens` (Candidate Filter, allergen test)

```python
if not allergens:
    return menu_items
for index, rows in menu_items.iterrows():
    if rows["allergens"] is not None:
        item_allergens = [x.strip().lower() for x in rows['allergens'].split(',')]
        user_allergens = [x.strip().lower() for x in allergens.split(',')]
        if any (allergen in item_allergens for allergen in user_allergens):
            menu_items.drop(index, inplace=True)
return menu_items
```

`iterrows` snapshots the frame before the in-place drops, and the frame's
index labels are unique, so the loop acts as a row filter.  The function
returns its (mutated) input frame. -/

/-- `[x.strip().lower() for x in s.split(',')]`. -/
def normTags (s : String) : List String :=
  (s.splitOn ",").map fun x => x.trim.toLower

/-- Embedding of `filter_allergens`. -/
def filter_allergens (menu_items : List CRow) (allergens : String) : List CRow :=
  if allergens = "" then menu_items
  else
    menu_items.filter fun r =>
      match r.allergens with
      | none => true
      | some s =>
        !((normTags allergens).any fun a => (normTags s).contains a)

/-! ## `limit_scope` (Candidate Sampler)

```python
num_items = items.shape[0]
choices = range(num_items)
if num_items > num_choices:
    choices = random.sample(choices, num_choices)
return choices
```

`random.sample` is an external callable; the embedding takes it as a
parameter `sample`, and `SampleSpec` states the contract Python documents
for it on a duplicate-free population: `k` distinct elements of the
population. -/

/-- Embedding of `limit_scope`; returns row indices into `items`. -/
def limit_scope (items : List CRow) (num_choices : Nat)
    (sample : List Nat → Nat → List Nat) : List Nat :=
  let num_items := items.length
  if num_items > num_choices then sample (List.range num_items) num_choices
  else List.range num_items

/-- The documented contract of `random.sample(population, k)` for a
duplicate-free population and `k ≤ len(population)`: `k` distinct members
of the population. -/
def SampleSpec (sample : List Nat → Nat → List Nat) : Prop :=
  ∀ l k, k ≤ l.length → l.Nodup →
    (sample l k).length = k ∧ (sample l k).Nodup ∧ ∀ x ∈ sample l k, x ∈ l

/-- A default row for (always in-bounds) positional indexing. -/
def dummyCRow : CRow := ⟨0, 0, "", "", "", "", none, .falsy⟩

/-! ## Calendar helpers (`get_weekday_and_increment`)

```python
year, month, day = map(int, date.split("-"))
try:
    date = datetime.datetime(year, month, day)
except:
    raise ValueError("Unable to parse date string. Ensure it is formatted properly as to YYYY-MM-DD format")
next_day = date + datetime.timedelta(days=1)
return next_day.strftime(r"%Y-%m-%d"), DAYS_OF_WEEK[date.weekday()]
```

Python's `datetime` uses the proleptic Gregorian calendar with years
1..9999; `date.weekday()` is 0 for Monday.  Rata-die day 1 (0001-01-01) is a
Monday, so `weekday = (rataDie - 1) % 7`.  Adding one day to 9999-12-31
overflows and the resulting exception propagates (it is raised outside the
`try`); numeric parsing of the split components models `int()` on the
canonical decimal-digit components. -/

/-- Gregorian leap year test. -/
def isLeap (y : Nat) : Bool := (y % 4 = 0 && y % 100 ≠ 0) || y % 400 = 0

/-- Days in month `m` (1..12) of year `y`. -/
def daysInMonth (y m : Nat) : Nat :=
  match m with
  | 1 => 31 | 2 => if isLeap y then 29 else 28 | 3 => 31 | 4 => 30
  | 5 => 31 | 6 => 30 | 7 => 31 | 8 => 31 | 9 => 30 | 10 => 31
  | 11 => 30 | 12 => 31
  | _ => 0

/-- Days in the months of year `y` strictly before month `m`. -/
def daysBeforeMonth (y m : Nat) : Nat :=
  match m with
  | 0 | 1 => 0
  | m + 1 => daysBeforeMonth y m + daysInMonth y m

/-- Day-of-year of `(y, m, d)` (1-based). -/
def dayOfYear (y m d : Nat) : Nat := daysBeforeMonth y m + d

/-- Rata-die day number: 0001-01-01 is day 1. -/
def rataDie (y m d : Nat) : Nat :=
  365 * (y - 1) + (y - 1) / 4 - (y - 1) / 100 + (y - 1) / 400 + dayOfYear y m d

/-- Python `date.weekday()`: Monday = 0. -/
def weekdayOf (y m d : Nat) : Nat := (rataDie y m d - 1) % 7

/-- `(y, m, d)` is a valid `datetime.datetime` date. -/
def validDateParts (y m d : Nat) : Bool :=
  1 ≤ y && y ≤ 9999 && 1 ≤ m && m ≤ 12 && 1 ≤ d && d ≤ daysInMonth y m

/-- The calendar successor of `(y, m, d)`. -/
def nextDateParts (y m d : Nat) : Nat × Nat × Nat :=
  if d < daysInMonth y m then (y, m, d + 1)
  else if m < 12 then (y, m + 1, 1)
  else (y + 1, 1, 1)

/-- Left-pad a digit list with `'0'` to width `w` (CPython `%Y`, `%m`,
`%d` zero-pad to 4 and 2). -/
def padDigits (w : Nat) (l : List Char) : List Char :=
  List.replicate (w - l.length) '0' ++ l

/-- `strftime("%Y-%m-%d")`. -/
def formatDateParts (y m d : Nat) : String :=
  String.mk (padDigits 4 (digitsOf y)) ++ "-" ++
  String.mk (padDigits 2 (digitsOf m)) ++ "-" ++
  String.mk (padDigits 2 (digitsOf d))

/-- `date.split("-")` on the character list (Python `str.split` with an
explicit separator: every occurrence splits, empty pieces kept). -/
def splitOnDash (cs : List Char) : List (List Char) :=
  match cs with
  | [] => [[]]
  | c :: rest =>
    if c = '-' then [] :: splitOnDash rest
    else
      match splitOnDash rest with
      | h :: t => (c :: h) :: t
      | [] => [[c]]

/-- Embedding of `get_weekday_and_increment`: returns
`(next day's date string, weekday name of the input date)`, or the error the
source raises. -/
def get_weekday_and_increment (date : String) : Except String (String × String) :=
  match (splitOnDash date.data).map parseNatDigits with
  | [some y, some m, some d] =>
    if validDateParts y m d then
      let (y2, m2, d2) := nextDateParts y m d
      if y2 ≤ 9999 then
        .ok (formatDateParts y2 m2 d2, DAYS_OF_WEEK.getD (weekdayOf y m d) "")
      else .error "OverflowError: date value out of range"
    else
      .error "Unable to parse date string. Ensure it is formatted properly as to YYYY-MM-DD format"
  | [_, _, _] => .error "ValueError: invalid literal for int() with base 10"
  | _ => .error "ValueError: values to unpack"

/-- Embedding of `get_meal_and_order_time`. -/
def get_meal_and_order_time (meal_number : Nat) : Except String (String × Int) :=
  match meal_number with
  | 1 => .ok ("breakfast", BREAKFAST_TIME)
  | 2 => .ok ("lunch", LUNCH_TIME)
  | 3 => .ok ("dinner", DINNER_TIME)
  | _ => .error "The meal number must be 1, 2, or 3"

/-! ## `__get_context` and `__pick_menu_item` (Selection Oracle)

The text-generation backend (`self.generator.generate`) and `random.sample`
are opaque callables, passed as parameters `generate` and `sample`.  One
attempt of the retry loop is recorded as an `Attempt` (the sample size it
requested, the candidate ids offered, and the raw backend text), making the
observable interaction of each attempt explicit — the source prints a diag
line per failed attempt. -/

/-- One attempt of the `__pick_menu_item` retry loop. -/
structure Attempt where
  num_choices : Nat
  item_ids : List Int
  llm_output : String
deriving DecidableEq

/-- The prompt construction of `__pick_menu_item`: `PROMPT_TEMPLATE` with
`{preferences}`, then `{context}`, then `{meal}` substituted. -/
def buildPrompt (preferences meal context : String) : String :=
  ((PROMPT_TEMPLATE.replace "{preferences}" preferences).replace
      "{context}" context).replace "{meal}" meal

/-- The `RuntimeError` message raised after all tries fail:
`f"LLM has failed {MAX_LLM_TRIES} times to generate a meal. Output: {llm_output}"`. -/
def failMessage (llm_output : String) : String :=
  "LLM has failed " ++ natStr MAX_LLM_TRIES ++
    " times to generate a meal. Output: " ++ llm_output

/-- The attempt `__pick_menu_item` performs at sample size `num_choices`:
fetch the context, render the prompt, call the backend. -/
def attemptOf (generate : String → String → String)
    (getContext : Nat → String × List Int) (preferences meal : String)
    (num_choices : Nat) : Attempt :=
  ⟨num_choices, (getContext num_choices).2,
   generate SYSTEM_TEMPLATE (buildPrompt preferences meal (getContext num_choices).1)⟩

/-- The retry loop of `__pick_menu_item` (`for x in range(MAX_LLM_TRIES)`),
with the remaining try budget, the current sample size and the last raw
backend output as loop state.  Returns the result together with the list of
attempts actually performed. -/
def pickLoop (generate : String → String → String)
    (getContext : Nat → String × List Int) (preferences meal : String) :
    Nat → Nat → String → Except String Int × List Attempt
  | 0, _, llm_output => (.error (failMessage llm_output), [])
  | tries + 1, num_choices, _ =>
    let att := attemptOf generate getContext preferences meal num_choices
    let output := format_llm_output att.llm_output
    if 0 < output ∧ output ∈ att.item_ids then (.ok output, [att])
    else
      let rest := pickLoop generate getContext preferences meal tries
        (num_choices + ITEM_CHOICES) att.llm_output
      (rest.1, att :: rest.2)

/-- Embedding of `MenuGenerator.__pick_menu_item`. -/
def pick_menu_item (generate : String → String → String)
    (getContextFn : String → String → Int → Nat → String × List Int)
    (preferences allergens weekday : String) (meal_number : Nat) :
    Except String Int × List Attempt :=
  match get_meal_and_order_time meal_number with
  | .error e => (.error e, [])
  | .ok (meal, order_time) =>
    pickLoop generate (fun n => getContextFn allergens weekday order_time n)
      preferences meal MAX_LLM_TRIES ITEM_CHOICES ""

/-- The CSV context block and offered-id list built by `__get_context` from
the filtered frame and the chosen row indices. -/
def contextOf (combined : List CRow) (choices : List Nat) : String × List Int :=
  choices.foldl
    (fun acc i =>
      let row := combined.getD i dummyCRow
      (acc.1 ++ intStr row.itm_id ++ "," ++ row.name ++ "," ++ row.description ++
         "," ++ row.price ++ "," ++ row.calories ++ "\n",
       acc.2 ++ [row.itm_id]))
    ("item_id,name,description,price,calories\n", [])

/-- The generator's state: the catalog snapshot loaded by the constructor.
The backend handle is kept outside (as the `generate` parameter). -/
structure MenuGenerator where
  menu_items : List ItemRow
  restaurants : List RtrRow
deriving DecidableEq

/-- Embedding of `MenuGenerator.__get_context`: merge, hours filter,
allergen filter, sampling, context rendering.  The merge materialises a new
frame, so the in-place operations of the two filters act on that copy and
the catalog snapshot is left untouched. -/
def MenuGenerator.get_context (g : MenuGenerator)
    (sample : List Nat → Nat → List Nat) (allergens weekday : String)
    (order_time : Int) (num_choices : Nat) : String × List Int :=
  let combined := mergeItemsRestaurants g.menu_items g.restaurants
  let combined := filter_closed_restaurants combined weekday order_time
  let combined := filter_allergens combined allergens
  let choices := limit_scope combined num_choices sample
  contextOf combined choices

/-! ## `update_menu` (Plan Assembler) -/

/-- Prefix test used by `stripLead?`-free scanning below: match of the
regex `\[{date},\d+,{meal_number}\]` at the head of `text` (for canonical
dates, which contain no regex metacharacters; `\d+` can only match the
maximal digit run because the following `,` is not a digit). -/
def stripLead? : List Char → List Char → Option (List Char)
  | [], rest => some rest
  | _ :: _, [] => none
  | p :: ps, c :: cs => if c = p then stripLead? ps cs else none

/-- Match of the slot pattern at the head of `text`. -/
def entryPatternAt (date mstr text : List Char) : Bool :=
  match stripLead? ('[' :: (date ++ [','])) text with
  | none => false
  | some r =>
    !(r.takeWhile Char.isDigit).isEmpty &&
      (stripLead? (',' :: (mstr ++ [']'])) (r.dropWhile Char.isDigit)).isSome

/-- Scan of all start positions (`re.search`). -/
def menuContainsAux (date mstr : List Char) : List Char → Bool
  | [] => false
  | c :: cs => entryPatternAt date mstr (c :: cs) || menuContainsAux date mstr cs

/-- `re.search(fr"\[{date},\d+,{meal_number}\]", menu) is not None`. -/
def menuContains (menu date : String) (meal_number : Nat) : Bool :=
  menuContainsAux date.data (digitsOf meal_number) menu.data

/-- The inner `for meal_number in meal_numbers` loop of `update_menu` for
one day: skip slots already present, otherwise query the Oracle (`pickFn`)
and append the new entry.  The second component counts Oracle queries. -/
def fillSlots (pickFn : String → Nat → Except String Int) (date weekday : String) :
    List Nat → String → Except String (String × Nat)
  | [], menu => .ok (menu, 0)
  | meal_number :: rest, menu =>
    if menuContains menu date meal_number then
      fillSlots pickFn date weekday rest menu
    else
      match pickFn weekday meal_number with
      | .error e => .error e
      | .ok itm_id =>
        let new_entry := "[" ++ date ++ "," ++ intStr itm_id ++ "," ++
          natStr meal_number ++ "]"
        let menu := if menu.length > 0 then menu ++ "," ++ new_entry else new_entry
        match fillSlots pickFn date weekday rest menu with
        | .error e => .error e
        | .ok (menu2, c) => .ok (menu2, c + 1)

/-- The outer `for x in range(number_of_days)` loop: fill one day's slots,
advance the date, recompute `(next_date, weekday)`. -/
def update_menu_days (pickFn : String → Nat → Except String Int)
    (meal_numbers : List Nat) :
    Nat → String → String → String → String → Except String (String × Nat)
  | 0, menu, _, _, _ => .ok (menu, 0)
  | days + 1, menu, date, next_date, weekday =>
    match fillSlots pickFn date weekday meal_numbers menu with
    | .error e => .error e
    | .ok (menu1, c1) =>
      match get_weekday_and_increment next_date with
      | .error e => .error e
      | .ok (next2, weekday2) =>
        match update_menu_days pickFn meal_numbers days menu1 next_date next2 weekday2 with
        | .error e => .error e
        | .ok (menu2, c2) => .ok (menu2, c1 + c2)

/-- The per-slot Oracle `update_menu` uses: `__pick_menu_item` over the
generator's own `__get_context`. -/
def pickOf (g : MenuGenerator) (generate : String → String → String)
    (sample : List Nat → Nat → List Nat) (preferences allergens : String) :
    String → Nat → Except String Int :=
  fun weekday meal_number =>
    (pick_menu_item generate (fun a w t n => g.get_context sample a w t n)
      preferences allergens weekday meal_number).1

/-- Embedding of `MenuGenerator.update_menu`.  The result carries the new
plan string, the number of Oracle queries performed, and the generator state
after the call (which the source never reassigns: `pd.merge` copies the
catalog and all in-place frame operations act on that copy). -/
def MenuGenerator.update_menu (g : MenuGenerator)
    (generate : String → String → String) (sample : List Nat → Nat → List Nat)
    (menu preferences allergens date : String) (meal_numbers : List Nat)
    (number_of_days : Nat) (goal : String) :
    Except String (String × Nat × MenuGenerator) :=
  let preferences :=
    if goal = "" then preferences else "GOAL: " ++ goal ++ ". " ++ preferences
  match get_weekday_and_increment date with
  | .error e => .error e
  | .ok (next_date, current_weekday) =>
    match update_menu_days (pickOf g generate sample preferences allergens)
        meal_numbers number_of_days menu date next_date current_weekday with
    | .error e => .error e
    | .ok (menu2, calls) => .ok (menu2, calls, g)

/-- The requested `(date, slot)` targets of a run are all present in `menu`,
and every date-arithmetic step of the run succeeds: mirrors the sequence of
`get_weekday_and_increment` calls (`date₀ … date_days`) and the per-slot
regex checks (`date₀ … date_{days-1}`) that `update_menu` performs. -/
def coveredRun (menu : String) (meal_numbers : List Nat) : String → Nat → Bool
  | date, 0 =>
    (match get_weekday_and_increment date with
     | .ok _ => true | .error _ => false)
  | date, days + 1 =>
    meal_numbers.all (fun m => menuContains menu date m) &&
    (match get_weekday_and_increment date with
     | .ok (nd, _) => coveredRun menu meal_numbers nd days
     | .error _ => false)

/-! ## Plan serialization (`update_menu` writer / `parse_generated_menu` reader)

`update_menu` appends entries of the literal shape `[date,itm_id,meal]`,
comma-separated.  `parse_generated_menu` (Flask_app.py) recovers them with

```python
pairs = re.findall(r'\[\s*(\d{4}-\d{2}-\d{2})\s*,\s*([0-9]+)\s*(?:,\s*([123])\s*)?\]', gen_str)
out = {}
for d, mid, meal in pairs:
    itm_id = int(mid)
    meal_i = int(meal) if meal else 3
    out.setdefault(d, []).append({'itm_id': itm_id, 'meal': meal_i})
```

The regex is deterministic on every input: the fixed-width date groups never
backtrack, `[0-9]+` must be the maximal digit run (the following `\s*` then
`,` or `]` cannot consume a digit), and when a `,` follows the id the
optional slot group is forced.  `findall` scans left to right, resuming
after each match. -/

/-- A plan entry `(date, item id, slot)`. -/
structure PlanEntry where
  date : String
  itm_id : Nat
  meal : Nat
deriving DecidableEq

/-- The textual form `update_menu` appends: `[date,itm_id,meal]`. -/
def entryString (e : PlanEntry) : String :=
  "[" ++ e.date ++ "," ++ natStr e.itm_id ++ "," ++ natStr e.meal ++ "]"

/-- The legacy slot-less textual form `[date,itm_id]`. -/
def entryStringLegacy (e : PlanEntry) : String :=
  "[" ++ e.date ++ "," ++ natStr e.itm_id ++ "]"

/-- Comma-joined serialization of a plan (as `update_menu` builds it). -/
def planString : List PlanEntry → String
  | [] => ""
  | e :: es =>
    match es with
    | [] => entryString e
    | _ :: _ => entryString e ++ "," ++ planString es

/-- Comma-joined serialization in the legacy slot-less form. -/
def planStringLegacy : List PlanEntry → String
  | [] => ""
  | e :: es =>
    match es with
    | [] => entryStringLegacy e
    | _ :: _ => entryStringLegacy e ++ "," ++ planStringLegacy es

/-- The captured groups of one `findall` match. -/
structure EntryGroups where
  date : List Char
  itm : List Char
  meal : Option Char
deriving DecidableEq

/-- `\s*`. -/
def dropSpaces (cs : List Char) : List Char := cs.dropWhile Char.isWhitespace

/-- `\d{n}`: exactly `n` digits at the head. -/
def takeDigitsN : Nat → List Char → Option (List Char × List Char)
  | 0, l => some ([], l)
  | _ + 1, [] => none
  | n + 1, c :: cs =>
    if c.isDigit then (takeDigitsN n cs).map (fun p => (c :: p.1, p.2)) else none

/-- `(\d{4}-\d{2}-\d{2})`. -/
def matchDateCs (cs : List Char) : Option (List Char × List Char) :=
  match takeDigitsN 4 cs with
  | none => none
  | some (y, r1) =>
    match r1 with
    | [] => none
    | e1 :: r2 =>
      if e1 = '-' then
        match takeDigitsN 2 r2 with
        | none => none
        | some (mo, r3) =>
          match r3 with
          | [] => none
          | e2 :: r4 =>
            if e2 = '-' then
              match takeDigitsN 2 r4 with
              | none => none
              | some (dd, r5) => some (y ++ '-' :: (mo ++ '-' :: dd), r5)
            else none
      else none

/-- `\s*(?:,\s*([123])\s*)?\]` after the id group. -/
def matchSlotTail (cs : List Char) : Option (Option Char × List Char) :=
  match dropSpaces cs with
  | [] => none
  | c0 :: r =>
    if c0 = ']' then some (none, r)
    else if c0 = ',' then
      match dropSpaces r with
      | [] => none
      | c :: r2 =>
        if c = '1' ∨ c = '2' ∨ c = '3' then
          match dropSpaces r2 with
          | [] => none
          | c3 :: r3 => if c3 = ']' then some (some c, r3) else none
        else none
    else none

/-- The whole pattern after an opening `'['`: groups and remaining text. -/
def matchAfterBracket (cs : List Char) : Option (EntryGroups × List Char) :=
  match matchDateCs (dropSpaces cs) with
  | none => none
  | some (dateCs, r1) =>
    match dropSpaces r1 with
    | [] => none
    | c0 :: r2 =>
      if c0 = ',' then
        let r3 := dropSpaces r2
        if (r3.takeWhile Char.isDigit).isEmpty then none
        else
          match matchSlotTail (r3.dropWhile Char.isDigit) with
          | none => none
          | some (slot, rest) => some (⟨dateCs, r3.takeWhile Char.isDigit, slot⟩, rest)
      else none

theorem dropSpaces_length_le (l : List Char) : (dropSpaces l).length ≤ l.length :=
  (List.dropWhile_sublist Char.isWhitespace).length_le

theorem takeDigitsN_length_le :
    ∀ (n : Nat) (l ds r : List Char), takeDigitsN n l = some (ds, r) →
      r.length ≤ l.length := by
  intro n
  induction n with
  | zero =>
    intro l ds r h
    simp only [takeDigitsN, Option.some.injEq, Prod.mk.injEq] at h
    rw [← h.2]
  | succ n ih =>
    intro l ds r h
    match l with
    | [] => simp [takeDigitsN] at h
    | c :: cs =>
      simp only [takeDigitsN] at h
      split at h
      · rw [Option.map_eq_some'] at h
        obtain ⟨p, hp, hf⟩ := h
        have hrec := ih cs p.1 p.2 (by rw [hp])
        cases hf
        simp only [List.length_cons]
        omega
      · simp at h

theorem matchDateCs_length_le (cs dateCs r : List Char)
    (h : matchDateCs cs = some (dateCs, r)) : r.length ≤ cs.length := by
  unfold matchDateCs at h
  split at h
  · simp at h
  next y r1 h4 =>
    have hle4 := takeDigitsN_length_le 4 cs y r1 h4
    split at h
    · simp at h
    next e1 r2 =>
      split at h
      · split at h
        · simp at h
        next mo r3 h2 =>
          have hle2 := takeDigitsN_length_le 2 r2 mo r3 h2
          split at h
          · simp at h
          next e2 r4 =>
            split at h
            · split at h
              · simp at h
              next dd r5 h3 =>
                have hle3 := takeDigitsN_length_le 2 r4 dd r5 h3
                simp only [Option.some.injEq, Prod.mk.injEq] at h
                rw [← h.2]
                simp only [List.length_cons] at hle4 hle2
                omega
            · simp at h
      · simp at h

theorem matchSlotTail_length_le (cs : List Char) (slot : Option Char)
    (rest : List Char) (h : matchSlotTail cs = some (slot, rest)) :
    rest.length ≤ cs.length := by
  unfold matchSlotTail at h
  split at h
  · simp at h
  next c0 r hd =>
    split at h
    · simp only [Option.some.injEq, Prod.mk.injEq] at h
      rw [← h.2]
      have hds := dropSpaces_length_le cs
      rw [hd] at hds
      simp only [List.length_cons] at hds
      omega
    · split at h
      · split at h
        · simp at h
        next c r2 hd2 =>
          split at h
          · split at h
            · simp at h
            next c3 r3 hd3 =>
              split at h
              · simp only [Option.some.injEq, Prod.mk.injEq] at h
                rw [← h.2]
                have hds := dropSpaces_length_le cs
                have hds2 := dropSpaces_length_le r
                have hds3 := dropSpaces_length_le r2
                rw [hd] at hds
                rw [hd2] at hds2
                rw [hd3] at hds3
                simp only [List.length_cons] at hds hds2 hds3
                omega
              · simp at h
          · simp at h
      · simp at h

/-- `rest` after a successful match is no longer than the input. -/
theorem matchAfterBracket_length_le (cs : List Char) (g : EntryGroups)
    (rest : List Char) (h : matchAfterBracket cs = some (g, rest)) :
    rest.length ≤ cs.length := by
  unfold matchAfterBracket at h
  split at h
  · simp at h
  next dateCs r1 hd =>
    have h1 : r1.length ≤ cs.length :=
      le_trans (matchDateCs_length_le _ _ _ hd) (dropSpaces_length_le cs)
    split at h
    · simp at h
    next c0 r2 hd2 =>
      split at h
      · dsimp only [] at h
        split at h
        · simp at h
        · split at h
          · simp at h
          next slot rest2 hst =>
            simp only [Option.some.injEq, Prod.mk.injEq] at h
            rw [← h.2]
            have ha := matchSlotTail_length_le _ _ _ hst
            have hb : ((dropSpaces r2).dropWhile Char.isDigit).length ≤
                (dropSpaces r2).length :=
              (List.dropWhile_sublist Char.isDigit).length_le
            have hc := dropSpaces_length_le r2
            have h2 := dropSpaces_length_le r1
            rw [hd2] at h2
            simp only [List.length_cons] at h2
            omega
      · simp at h

/-- `re.findall` scan: try the pattern at each position (a match can only
start at `'['`), resume after each match. -/
def scanEntries : List Char → List EntryGroups
  | [] => []
  | c :: cs =>
    if c = '[' then
      match h : matchAfterBracket cs with
      | some (g, rest) => g :: scanEntries rest
      | none => scanEntries cs
    else scanEntries cs
termination_by l => l.length
decreasing_by
  all_goals simp only [List.length_cons]
  · have := matchAfterBracket_length_le _ _ _ h
    omega
  · omega
  · omega

/-- `int(meal) if meal else 3`. -/
def mealOfGroup : Option Char → Nat
  | some c => c.toNat - 48
  | none => 3

/-- `out.setdefault(d, []).append(v)` over an insertion-ordered mapping. -/
def addPlanItem (out : List (String × List (Nat × Nat))) (d : String)
    (v : Nat × Nat) : List (String × List (Nat × Nat)) :=
  match out with
  | [] => [(d, [v])]
  | (k, vs) :: t => if k = d then (k, vs ++ [v]) :: t else (k, vs) :: addPlanItem t d v

/-- Embedding of `parse_generated_menu` (Flask_app.py): date-keyed,
insertion-ordered mapping to `(itm_id, meal)` lists. -/
def parse_generated_menu (gen_str : String) : List (String × List (Nat × Nat)) :=
  (scanEntries gen_str.data).foldl
    (fun out g => addPlanItem out (String.mk g.date) (natOfDigits g.itm, mealOfGroup g.meal))
    []

/-- The same mapping built directly from structured entries. -/
def groupEntries (es : List PlanEntry) : List (String × List (Nat × Nat)) :=
  es.foldl (fun out e => addPlanItem out e.date (e.itm_id, e.meal)) []

/-- A canonical `YYYY-MM-DD` character list: ten characters, digits in the
digit positions, dashes at positions 4 and 7. -/
def dateCharsWF (l : List Char) : Bool :=
  match l with
  | [a, b, c, d, e, f, g, h, i, j] =>
    a.isDigit && b.isDigit && c.isDigit && d.isDigit && e = '-' &&
    f.isDigit && g.isDigit && h = '-' && i.isDigit && j.isDigit
  | _ => false

/-- A canonical `YYYY-MM-DD` date string. -/
def dateWF (s : String) : Bool := dateCharsWF s.data

theorem digitChar_isDigit (n : Nat) : (digitChar n).isDigit = true := by
  unfold digitChar
  split <;> decide

theorem digitChar_toNat (n : Nat) (h : n < 10) : (digitChar n).toNat = 48 + n := by
  interval_cases n <;> decide

theorem natOfDigits_append_singleton (l : List Char) (c : Char) :
    natOfDigits (l ++ [c]) = 10 * natOfDigits l + (c.toNat - 48) := by
  simp [natOfDigits]

theorem digitsOfAux_spec (fuel : Nat) :
    ∀ n, n < fuel →
      digitsOfAux fuel n ≠ [] ∧
      (∀ c ∈ digitsOfAux fuel n, c.isDigit = true) ∧
      natOfDigits (digitsOfAux fuel n) = n := by
  induction fuel with
  | zero => intro n h; omega
  | succ fuel ih =>
    intro n h
    by_cases hn : n < 10
    · refine ⟨by simp [digitsOfAux, hn], ?_, ?_⟩
      · intro c hc
        simp [digitsOfAux, hn] at hc
        subst hc
        exact digitChar_isDigit n
      · simp [digitsOfAux, hn, natOfDigits]
        have := digitChar_toNat n hn
        omega
    · have hdiv : n / 10 < n := Nat.div_lt_self (by omega) (by omega)
      have hfuel : n / 10 < fuel := by omega
      obtain ⟨hne, hdig, hval⟩ := ih (n / 10) hfuel
      refine ⟨by simp [digitsOfAux, hn], ?_, ?_⟩
      · intro c hc
        simp only [digitsOfAux, hn, if_false, List.mem_append, List.mem_singleton] at hc
        rcases hc with hc | hc
        · exact hdig c hc
        · subst hc; exact digitChar_isDigit _
      · simp only [digitsOfAux, hn, if_false]
        rw [natOfDigits_append_singleton, hval,
            digitChar_toNat (n % 10) (Nat.mod_lt _ (by omega))]
        omega

theorem digitsOf_ne_nil (n : Nat) : digitsOf n ≠ [] :=
  (digitsOfAux_spec (n + 1) n (Nat.lt_succ_self n)).1

theorem digitsOf_all_digit (n : Nat) : ∀ c ∈ digitsOf n, c.isDigit = true :=
  (digitsOfAux_spec (n + 1) n (Nat.lt_succ_self n)).2.1

theorem natOfDigits_digitsOf (n : Nat) : natOfDigits (digitsOf n) = n :=
  (digitsOfAux_spec (n + 1) n (Nat.lt_succ_self n)).2.2

theorem digitRuns_cons_of_not_digit {c : Char} (cs : List Char)
    (h : c.isDigit = false) : digitRuns (c :: cs) = digitRuns cs := by
  simp [digitRuns, h]

theorem digitRuns_cons_of_digit {c : Char} (cs : List Char)
    (h : c.isDigit = true) :
    digitRuns (c :: cs) =
      (c :: cs).takeWhile Char.isDigit ::
        digitRuns ((c :: cs).dropWhile Char.isDigit) := by
  induction cs generalizing c with
  | nil => simp [digitRuns, h]
  | cons d cs ih =>
    by_cases hd : d.isDigit
    · have hrec := ih (c := d) hd
      rw [digitRuns]
      simp only [h, if_true, hd, hrec]
      simp [h, hd]
    · rw [digitRuns]
      simp only [Bool.not_eq_true] at hd
      simp [h, hd]

theorem digitRuns_eq_nil_iff (l : List Char) :
    digitRuns l = [] ↔ ∀ c ∈ l, c.isDigit = false := by
  induction l with
  | nil => simp [digitRuns]
  | cons c cs ih =>
    by_cases hc : c.isDigit
    · rw [digitRuns_cons_of_digit cs hc]
      simp only [List.cons_ne_nil, false_iff]
      intro h
      have := h c (by simp)
      simp [hc] at this
    · simp only [Bool.not_eq_true] at hc
      rw [digitRuns_cons_of_not_digit cs hc]
      rw [ih]
      constructor
      · intro h d hd
        rcases List.mem_cons.mp hd with h1 | h1
        · subst h1; exact hc
        · exact h d h1
      · intro h d hd
        exact h d (List.mem_cons_of_mem _ hd)

theorem head_dropWhile_false {p : Char → Bool} :
    ∀ (l : List Char) (x : Char) (xs : List Char),
      l.dropWhile p = x :: xs → p x = false := by
  intro l
  induction l with
  | nil => intro x xs h; simp [List.dropWhile] at h
  | cons c cs ih =>
    intro x xs h
    by_cases hc : p c
    · rw [List.dropWhile_cons_of_pos hc] at h
      exact ih x xs h
    · simp only [Bool.not_eq_true] at hc
      rw [List.dropWhile_cons_of_neg (by simp [hc])] at h
      cases h
      exact hc

/-- The last digit run of `l` really is a final maximal run: `l` splits as
`a ++ r ++ b` where `r` is a non-empty all-digit run, no digit occurs after
it, and the character just before it (if any) is not a digit. -/
theorem digitRuns_getLast_spec_fuel (n : Nat) :
    ∀ (l : List Char), l.length ≤ n →
      ∀ (r : List Char), (digitRuns l).getLast? = some r →
      ∃ a b, l = a ++ r ++ b ∧ r ≠ [] ∧
        (∀ c ∈ r, c.isDigit = true) ∧
        (∀ c ∈ b, c.isDigit = false) ∧
        (∀ c, a.getLast? = some c → c.isDigit = false) := by
  induction n with
  | zero =>
    intro l hl r hr
    have : l = [] := List.length_eq_zero.mp (Nat.le_zero.mp hl)
    subst this
    simp [digitRuns] at hr
  | succ n ih =>
    intro l hl r hr
    match l, hl with
    | [], _ => simp [digitRuns] at hr
    | c :: cs, hl =>
      by_cases hc : c.isDigit
      · rw [digitRuns_cons_of_digit cs hc] at hr
        have hsplit := List.takeWhile_append_dropWhile (p := Char.isDigit) (l := c :: cs)
        set tw := (c :: cs).takeWhile Char.isDigit with htw
        set dw := (c :: cs).dropWhile Char.isDigit with hdw
        have htwcons : tw = c :: cs.takeWhile Char.isDigit := by
          rw [htw, List.takeWhile_cons_of_pos hc]
        cases hrest : digitRuns dw with
        | nil =>
          rw [hrest] at hr
          simp only [List.getLast?_singleton, Option.some.injEq] at hr
          subst hr
          refine ⟨[], dw, by simpa using hsplit.symm, by simp [htwcons], ?_, ?_, ?_⟩
          · intro x hx
            exact List.mem_takeWhile_imp hx
          · exact (digitRuns_eq_nil_iff dw).mp hrest
          · intro x hx; simp at hx
        | cons r0 rt =>
          rw [hrest] at hr
          have hlast : (digitRuns dw).getLast? = some r := by
            rw [hrest, ← hr]
            exact (List.getLast?_cons_cons).symm
          have hdwlen : dw.length ≤ n := by
            have heq : dw = cs.dropWhile Char.isDigit := by
              rw [hdw, List.dropWhile_cons_of_pos hc]
            have hle : (cs.dropWhile Char.isDigit).length ≤ cs.length :=
              (List.dropWhile_sublist Char.isDigit).length_le
            rw [heq]
            simp only [List.length_cons] at hl
            omega
          obtain ⟨a, b, hab, hrne, hrdig, hbnd, habd⟩ := ih dw hdwlen r hlast
          refine ⟨tw ++ a, b, ?_, hrne, hrdig, hbnd, ?_⟩
          · rw [← hsplit, hab]
            simp [List.append_assoc]
          · intro x hx
            cases ha : a with
            | nil =>
              subst ha
              obtain ⟨rc, rcs, hrc⟩ := List.exists_cons_of_ne_nil hrne
              have hdwhead : dw = rc :: (rcs ++ b) := by
                rw [hab, hrc]; simp
              have hfalse := head_dropWhile_false (c :: cs) rc (rcs ++ b)
                (by rw [← hdw, hdwhead])
              have hrcdig : rc.isDigit = true := hrdig rc (by rw [hrc]; simp)
              rw [hfalse] at hrcdig
              exact absurd hrcdig (by simp)
            | cons a0 as =>
              subst ha
              rw [List.getLast?_append_of_ne_nil _ (by simp)] at hx
              exact habd x hx
      · simp only [Bool.not_eq_true] at hc
        rw [digitRuns_cons_of_not_digit cs hc] at hr
        have hcslen : cs.length ≤ n := by
          simp only [List.length_cons] at hl; omega
        obtain ⟨a, b, hab, hrne, hrdig, hbnd, habd⟩ := ih cs hcslen r hr
        refine ⟨c :: a, b, by rw [hab]; simp, hrne, hrdig, hbnd, ?_⟩
        intro x hx
        cases ha : a with
        | nil =>
          subst ha
          simp only [List.getLast?_singleton, Option.some.injEq] at hx
          subst hx
          exact hc
        | cons a0 as =>
          subst ha
          rw [List.getLast?_cons_cons] at hx
          exact habd x hx

/-- The last digit run of `l` really is a final maximal run: `l` splits as
`a ++ r ++ b` where `r` is a non-empty all-digit run, no digit occurs after
it, and the character just before it (if any) is not a digit. -/
theorem digitRuns_getLast_spec (l : List Char) (r : List Char)
    (hr : (digitRuns l).getLast? = some r) :
    ∃ a b, l = a ++ r ++ b ∧ r ≠ [] ∧
      (∀ c ∈ r, c.isDigit = true) ∧
      (∀ c ∈ b, c.isDigit = false) ∧
      (∀ c, a.getLast? = some c → c.isDigit = false) :=
  digitRuns_getLast_spec_fuel l.length l le_rfl r hr

/-- C7: `format_llm_output` finds every maximal run of decimal digits in the
backend text; when at least one exists it returns the integer value of the
last such run (hence a non-negative result); when the text has no digits it
returns the sentinel `LLM_ATTRIBUTE_ERROR = -1`, which is negative and thus
distinguishable from every real (positive) item id. -/
theorem format_llm_output_last_run (s : String) :
    ((∀ c ∈ s.data, c.isDigit = false) →
      format_llm_output s = LLM_ATTRIBUTE_ERROR ∧ format_llm_output s < 0) ∧
    ((∃ c ∈ s.data, c.isDigit = true) →
      ∃ a r b, s.data = a ++ r ++ b ∧ r ≠ [] ∧
        (∀ c ∈ r, c.isDigit = true) ∧
        (∀ c ∈ b, c.isDigit = false) ∧
        (∀ c, a.getLast? = some c → c.isDigit = false) ∧
        format_llm_output s = (natOfDigits r : Int) ∧
        0 ≤ format_llm_output s) := by
  constructor
  · intro h
    have hnil : digitRuns s.data = [] := (digitRuns_eq_nil_iff _).mpr h
    simp [format_llm_output, hnil, LLM_ATTRIBUTE_ERROR]
  · rintro ⟨c, hc, hcd⟩
    have hne : digitRuns s.data ≠ [] := by
      intro hnil
      have := (digitRuns_eq_nil_iff _).mp hnil c hc
      rw [hcd] at this
      exact absurd this (by simp)
    obtain ⟨r, hr⟩ : ∃ r, (digitRuns s.data).getLast? = some r := by
      cases hcase : (digitRuns s.data).getLast? with
      | none => exact absurd (List.getLast?_eq_none_iff.mp hcase) hne
      | some r => exact ⟨r, rfl⟩
    obtain ⟨a, b, hab, hrne, hrdig, hbnd, habd⟩ := digitRuns_getLast_spec _ _ hr
    refine ⟨a, r, b, hab, hrne, hrdig, hbnd, habd, ?_, ?_⟩
    · simp [format_llm_output, hr]
    · simp [format_llm_output, hr]

/-- Witness for C7 on the spec's scenario text "I recommend item 105 for
you.", instantiating the digit-bearing branch. -/
theorem format_llm_output_last_run_witness :
    ∃ a r b, ("I recommend item 105 for you.").data = a ++ r ++ b ∧ r ≠ [] ∧
      (∀ c ∈ r, c.isDigit = true) ∧
      (∀ c ∈ b, c.isDigit = false) ∧
      (∀ c, a.getLast? = some c → c.isDigit = false) ∧
      format_llm_output "I recommend item 105 for you." = (natOfDigits r : Int) ∧
      0 ≤ format_llm_output "I recommend item 105 for you." :=
  (format_llm_output_last_run "I recommend item 105 for you.").2 (by decide)

/-- The tags appearing on a row for the allergen test: empty when the
`allergens` column is NULL. -/
theorem filter_allergens_empty (items : List CRow) :
    filter_allergens items "" = items := by
  simp [filter_allergens]

/-- C4: with a non-empty allergen list `A`, no row surviving
`filter_allergens` carries a tag (split on commas, trimmed, lower-cased)
equal to any allergen of `A` (same normalisation); with `A` empty the filter
returns its input unchanged. -/
theorem filter_allergens_spec (items : List CRow) (A : String) :
    (A = "" → filter_allergens items A = items) ∧
    (A ≠ "" → ∀ r ∈ filter_allergens items A,
      ∀ tag ∈ (match r.allergens with | none => [] | some s => normTags s),
        tag ∉ normTags A) := by
  constructor
  · intro hA
    subst hA
    exact filter_allergens_empty items
  · intro hA r hr tag htag hmem
    rw [filter_allergens, if_neg hA] at hr
    have hkeep := (List.mem_filter.mp hr).2
    cases hall : r.allergens with
    | none => rw [hall] at htag; simp at htag
    | some s =>
      rw [hall] at hkeep htag
      simp only [Bool.not_eq_true'] at hkeep
      have : (normTags A).any (fun a => (normTags s).contains a) = true :=
        List.any_eq_true.mpr ⟨tag, hmem, List.elem_eq_true_of_mem htag⟩
      rw [this] at hkeep
      exact absurd hkeep (by simp)

/-- Witness for C4 on the spec's scenario: items `{id 1, "Peanuts, Soy"}`
and `{id 2, NULL}` filtered by `A = "peanuts"`. -/
theorem filter_allergens_spec_witness :
    ¬("peanuts" = "") ∧
    (∀ r ∈ filter_allergens
        [⟨1, 1, "", "", "", "", some "Peanuts, Soy", .falsy⟩,
         ⟨2, 1, "", "", "", "", none, .falsy⟩] "peanuts",
      ∀ tag ∈ (match r.allergens with | none => [] | some s => normTags s),
        tag ∉ normTags "peanuts") :=
  ⟨by decide,
   (filter_allergens_spec
      [⟨1, 1, "", "", "", "", some "Peanuts, Soy", .falsy⟩,
       ⟨2, 1, "", "", "", "", none, .falsy⟩] "peanuts").2 (by decide)⟩

/-- A row survives `filter_closed_restaurants` iff its own hours value earns
no "closed" verdict — provided every row sharing its `rtr_id` carries the
same hours, which the left merge guarantees (the hours come from the
restaurant side). -/
theorem mem_filter_closed_iff_verdict (tbl : List CRow) (r : CRow)
    (weekday : String) (t : Int) (hmem : r ∈ tbl)
    (hsame : ∀ r' ∈ tbl, r'.rtr_id = r.rtr_id → r'.hours = r.hours) :
    (r ∈ filter_closed_restaurants tbl weekday t) ↔
      closedVerdict r.hours weekday t = false := by
  unfold filter_closed_restaurants
  rw [List.mem_filter]
  constructor
  · rintro ⟨-, hkeep⟩
    simp only [Bool.not_eq_true'] at hkeep
    by_contra hcv
    have hcv' : closedVerdict r.hours weekday t = true := by
      cases hb : closedVerdict r.hours weekday t
      · exact absurd hb hcv
      · rfl
    have hany : tbl.any
        (fun r' => r'.rtr_id == r.rtr_id && closedVerdict r'.hours weekday t) = true :=
      List.any_eq_true.mpr ⟨r, hmem, by simp [hcv']⟩
    rw [hany] at hkeep
    cases hkeep
  · intro hcv
    refine ⟨hmem, ?_⟩
    simp only [Bool.not_eq_true']
    rw [List.any_eq_false]
    intro r' hr'
    by_cases hid : r'.rtr_id = r.rtr_id
    · have heq := hsame r' hr' hid
      simp [hid, heq, hcv]
    · simp [hid]

/-- The "closed" verdict of a parsed hours table is `false` exactly when the
weekday's list is non-empty, of even length, and covers the queried time. -/
theorem closedVerdict_table_false_iff (m : List (String × List Int))
    (weekday : String) (t : Int) :
    closedVerdict (.table m) weekday t = false ↔
      (((m.lookup weekday).getD []) ≠ [] ∧
       ((m.lookup weekday).getD []).length % 2 = 0 ∧
       isOpenAt ((m.lookup weekday).getD []) t = true) := by
  simp only [closedVerdict]
  set ot := (m.lookup weekday).getD [] with hot
  by_cases h1 : ot = []
  · simp [h1]
  · rw [if_neg h1]
    by_cases h2 : ot.length % 2 = 1
    · rw [if_pos h2]
      constructor
      · intro h; cases h
      · rintro ⟨-, heven, -⟩; omega
    · rw [if_neg h2]
      have hlen : 2 ≤ ot.length := by
        have : ot.length ≠ 0 := fun hz => h1 (List.length_eq_zero.mp hz)
        omega
      rw [if_pos hlen]
      simp only [Bool.not_eq_false']
      constructor
      · intro h; exact ⟨h1, by omega, h⟩
      · rintro ⟨-, -, h⟩; exact h

/-- The pair scan succeeds iff some alternating `[open, close]` pair covers
`t` with inclusive bounds on both ends. -/
theorem isOpenAt_iff (ot : List Int) (t : Int) :
    isOpenAt ot t = true ↔
      ∃ x, x < ot.length / 2 ∧
        ot.getD (2 * x) 0 ≤ t ∧ t ≤ ot.getD (2 * x + 1) 0 := by
  unfold isOpenAt
  rw [List.any_eq_true]
  constructor
  · rintro ⟨x, hx, hcond⟩
    rw [List.mem_range] at hx
    rw [Bool.and_eq_true, decide_eq_true_eq, decide_eq_true_eq] at hcond
    exact ⟨x, hx, hcond⟩
  · rintro ⟨x, hx, hcond1, hcond2⟩
    refine ⟨x, List.mem_range.mpr hx, ?_⟩
    rw [Bool.and_eq_true, decide_eq_true_eq, decide_eq_true_eq]
    exact ⟨hcond1, hcond2⟩

/-- C3: for a row whose hours parsed to a JSON table (all rows of its
restaurant sharing those hours), the open-hours filter keeps it iff the
weekday's hours list is non-empty, of even length, and the queried time `t`
falls inside at least one alternating `[open, close]` pair with inclusive
bounds on both ends; empty or odd-length lists, and lists none of whose
pairs cover `t`, exclude it. -/
theorem filter_closed_open_hours_iff (tbl : List CRow) (r : CRow)
    (weekday : String) (t : Int) (m : List (String × List Int))
    (hmem : r ∈ tbl) (hh : r.hours = .table m)
    (hsame : ∀ r' ∈ tbl, r'.rtr_id = r.rtr_id → r'.hours = r.hours) :
    (r ∈ filter_closed_restaurants tbl weekday t) ↔
      (((m.lookup weekday).getD []) ≠ [] ∧
       ((m.lookup weekday).getD []).length % 2 = 0 ∧
       ∃ x, x < ((m.lookup weekday).getD []).length / 2 ∧
         ((m.lookup weekday).getD []).getD (2 * x) 0 ≤ t ∧
         t ≤ ((m.lookup weekday).getD []).getD (2 * x + 1) 0) := by
  rw [mem_filter_closed_iff_verdict tbl r weekday t hmem hsame, hh,
      closedVerdict_table_false_iff, isOpenAt_iff]

/-- Witness for C3 on the spec's scenario: hours `{"Mon": [1000, 2000]}`,
query `Mon 1200` → included, `Mon 2200` → excluded. -/
theorem filter_closed_open_hours_iff_witness :
    ((⟨1, 1, "", "", "", "", none, .table [("Mon", [1000, 2000])]⟩ : CRow) ∈
      filter_closed_restaurants
        [⟨1, 1, "", "", "", "", none, .table [("Mon", [1000, 2000])]⟩] "Mon" 1200) ∧
    ((⟨1, 1, "", "", "", "", none, .table [("Mon", [1000, 2000])]⟩ : CRow) ∉
      filter_closed_restaurants
        [⟨1, 1, "", "", "", "", none, .table [("Mon", [1000, 2000])]⟩] "Mon" 2200) := by
  constructor
  · exact (filter_closed_open_hours_iff _ _ "Mon" 1200 [("Mon", [1000, 2000])]
      (by decide) rfl (by decide)).mpr
      ⟨by decide, by decide, 0, by decide, by decide, by decide⟩
  · intro hin
    obtain ⟨-, -, x, hx, -, h2⟩ :=
      (filter_closed_open_hours_iff _ _ "Mon" 2200 [("Mon", [1000, 2000])]
        (by decide) rfl (by decide)).mp hin
    have hcomp : ((([("Mon", [1000, 2000])] :
        List (String × List Int)).lookup "Mon").getD []).length / 2 = 1 := by decide
    rw [hcomp] at hx
    interval_cases x
    exact absurd h2 (by decide)

/-- C10: the open-hours filter fails open, not closed, at the whole-field
level: rows whose hours value is falsy, the non-string `NaN` of an
unmatched left join, a non-JSON string, or a string whose JSON processing
raises, are always kept; only an empty or odd-length per-weekday list
inside valid JSON excludes among those conditions.  The third conjunct
shows the left merge does produce the `NaN` hours row for an item whose
restaurant is absent. -/
theorem filter_closed_fail_open (tbl : List CRow) (r : CRow) (weekday : String)
    (t : Int) (hmem : r ∈ tbl)
    (hsame : ∀ r' ∈ tbl, r'.rtr_id = r.rtr_id → r'.hours = r.hours) :
    ((r.hours = .falsy ∨ r.hours = .nan ∨ r.hours = .nonJson ∨ r.hours = .badJson) →
      r ∈ filter_closed_restaurants tbl weekday t) ∧
    (∀ m, r.hours = .table m →
      ((m.lookup weekday).getD [] = [] ∨
        ((m.lookup weekday).getD []).length % 2 = 1) →
      r ∉ filter_closed_restaurants tbl weekday t) ∧
    (∀ (items : List ItemRow) (rtrs : List RtrRow) (it : ItemRow), it ∈ items →
      (∀ rr ∈ rtrs, rr.rtr_id ≠ it.rtr_id) →
      (⟨it.itm_id, it.rtr_id, it.name, it.description, it.price, it.calories,
        it.allergens, .nan⟩ : CRow) ∈ mergeItemsRestaurants items rtrs) := by
  refine ⟨?_, ?_, ?_⟩
  · intro hben
    rw [mem_filter_closed_iff_verdict tbl r weekday t hmem hsame]
    rcases hben with h | h | h | h <;> rw [h] <;> rfl
  · intro m hh hbad hin
    rw [mem_filter_closed_iff_verdict tbl r weekday t hmem hsame, hh] at hin
    have : closedVerdict (.table m) weekday t = true := by
      simp only [closedVerdict]
      rcases hbad with hbad | hbad
      · rw [if_pos hbad]
      · by_cases h1 : (m.lookup weekday).getD [] = []
        · rw [if_pos h1]
        · rw [if_neg h1, if_pos hbad]
    rw [this] at hin
    cases hin
  · intro items rtrs it hit hnone
    unfold mergeItemsRestaurants
    rw [List.mem_flatMap]
    refine ⟨it, hit, ?_⟩
    have hfil : rtrs.filter (fun rr => rr.rtr_id == it.rtr_id) = [] := by
      rw [List.filter_eq_nil_iff]
      intro rr hrr
      simp [hnone rr hrr]
    rw [hfil]
    simp

/-- Witness for C10: a `NaN`-hours row is kept, an odd-hours row is dropped,
and the merge of an item with no restaurant row yields the `NaN` row. -/
theorem filter_closed_fail_open_witness :
    ((⟨1, 5, "", "", "", "", none, .nan⟩ : CRow) ∈
      filter_closed_restaurants [⟨1, 5, "", "", "", "", none, .nan⟩] "Mon" 1200) ∧
    ((⟨2, 6, "", "", "", "", none, .table [("Mon", [1000])]⟩ : CRow) ∉
      filter_closed_restaurants
        [⟨2, 6, "", "", "", "", none, .table [("Mon", [1000])]⟩] "Mon" 1200) ∧
    ((⟨1, 5, "n", "d", "p", "c", none, .nan⟩ : CRow) ∈
      mergeItemsRestaurants [⟨1, 5, "n", "d", "p", "c", none⟩] []) := by
  refine ⟨?_, ?_, ?_⟩
  · exact (filter_closed_fail_open _ _ "Mon" 1200 (by decide) (by decide)).1
      (Or.inr (Or.inl rfl))
  · exact (filter_closed_fail_open _ _ "Mon" 1200 (by decide) (by decide)).2.1
      [("Mon", [1000])] rfl (Or.inr (by decide))
  · exact (filter_closed_fail_open
        [⟨1, 5, "n", "d", "p", "c", none, .nan⟩]
        ⟨1, 5, "n", "d", "p", "c", none, .nan⟩ "Mon" 1200
        (by decide) (by decide)).2.2
      [⟨1, 5, "n", "d", "p", "c", none⟩] [] ⟨1, 5, "n", "d", "p", "c", none⟩
      (by decide) (by decide)

/-- Positional indexing over `List.range l.length` recovers the list. -/
theorem map_getD_range (l : List CRow) :
    (List.range l.length).map (fun i => l.getD i dummyCRow) = l := by
  induction l with
  | nil => simp
  | cons a l ih =>
    rw [List.length_cons, List.range_succ_eq_map, List.map_cons, List.map_map]
    have hcomp : ((fun i => (a :: l).getD i dummyCRow) ∘ (fun i => i + 1)) =
        (fun i => l.getD i dummyCRow) := by
      funext i
      simp [Function.comp, List.getD_cons_succ]
    rw [hcomp, ih, List.getD_cons_zero]

/-- C8: the Candidate Sampler returns every row (by index) when the
filtered set has at most `num_choices` rows, and otherwise — for any
`sample` obeying `random.sample`'s contract — exactly `num_choices`
distinct row indices, all in range, so the selected rows all come from the
input set with no row position repeated. -/
theorem limit_scope_spec (items : List CRow) (num_choices : Nat)
    (sample : List Nat → Nat → List Nat) (hs : SampleSpec sample) :
    (items.length ≤ num_choices →
      (limit_scope items num_choices sample).map
        (fun i => items.getD i dummyCRow) = items) ∧
    (num_choices < items.length →
      (limit_scope items num_choices sample).length = num_choices ∧
      (limit_scope items num_choices sample).Nodup ∧
      (∀ i ∈ limit_scope items num_choices sample, i < items.length) ∧
      (∀ r ∈ (limit_scope items num_choices sample).map
          (fun i => items.getD i dummyCRow), r ∈ items)) := by
  constructor
  · intro hle
    unfold limit_scope
    rw [if_neg (by omega)]
    exact map_getD_range items
  · intro hlt
    have hcall := hs (List.range items.length) num_choices
      (by rw [List.length_range]; omega) (List.nodup_range _)
    unfold limit_scope
    rw [if_pos (by omega)]
    have hbound : ∀ i ∈ sample (List.range items.length) num_choices,
        i < items.length := by
      intro i hi
      have := hcall.2.2 i hi
      rwa [List.mem_range] at this
    refine ⟨hcall.1, hcall.2.1, hbound, ?_⟩
    intro r hr
    rw [List.mem_map] at hr
    obtain ⟨i, hi, hri⟩ := hr
    have hilt := hbound i hi
    rw [← hri, List.getD_eq_getElem _ _ hilt]
    exact List.getElem_mem hilt

/-- `l.take k` satisfies the `random.sample` contract (a deterministic
instance used to witness the sampler spec). -/
theorem take_sample_spec : SampleSpec (fun l k => l.take k) := by
  intro l k hk hnd
  refine ⟨by rw [List.length_take]; omega, hnd.sublist (List.take_sublist k l), ?_⟩
  intro x hx
  exact List.mem_of_mem_take hx

/-- Witness for C8: both branches at concrete inputs (2 rows with budget
10; 3 rows with budget 2). -/
theorem limit_scope_spec_witness :
    ((limit_scope [dummyCRow, dummyCRow] 10 (fun l k => l.take k)).map
      (fun i => ([dummyCRow, dummyCRow] : List CRow).getD i dummyCRow) =
      [dummyCRow, dummyCRow]) ∧
    ((limit_scope [dummyCRow, dummyCRow, dummyCRow] 2 (fun l k => l.take k)).length = 2 ∧
      (limit_scope [dummyCRow, dummyCRow, dummyCRow] 2 (fun l k => l.take k)).Nodup ∧
      (∀ i ∈ limit_scope [dummyCRow, dummyCRow, dummyCRow] 2 (fun l k => l.take k),
        i < ([dummyCRow, dummyCRow, dummyCRow] : List CRow).length) ∧
      (∀ r ∈ (limit_scope [dummyCRow, dummyCRow, dummyCRow] 2 (fun l k => l.take k)).map
          (fun i => ([dummyCRow, dummyCRow, dummyCRow] : List CRow).getD i dummyCRow),
        r ∈ ([dummyCRow, dummyCRow, dummyCRow] : List CRow))) :=
  ⟨(limit_scope_spec [dummyCRow, dummyCRow] 10 _ take_sample_spec).1 (by decide),
   (limit_scope_spec [dummyCRow, dummyCRow, dummyCRow] 2 _ take_sample_spec).2 (by decide)⟩

/-- A successful `pickLoop` run returns the value parsed from the last
attempt's raw output, and that value is positive and among the ids that
attempt offered. -/
theorem pickLoop_ok (generate : String → String → String)
    (getContext : Nat → String × List Int) (preferences meal : String) :
    ∀ (tries num_choices : Nat) (last : String) (id : Int) (trace : List Attempt),
      pickLoop generate getContext preferences meal tries num_choices last =
        (.ok id, trace) →
      0 < id ∧ ∃ att, trace.getLast? = some att ∧
        att = attemptOf generate getContext preferences meal att.num_choices ∧
        id = format_llm_output att.llm_output ∧ id ∈ att.item_ids := by
  intro tries
  induction tries with
  | zero =>
    intro nc last id trace h
    rw [pickLoop] at h
    simp at h
  | succ n ih =>
    intro nc last id trace h
    rw [pickLoop] at h
    dsimp only [] at h
    split at h
    next hcond =>
      rw [Prod.mk.injEq] at h
      obtain ⟨hok, htr⟩ := h
      rw [Except.ok.injEq] at hok
      subst hok
      subst htr
      exact ⟨hcond.1, attemptOf generate getContext preferences meal nc, rfl, rfl,
        rfl, hcond.2⟩
    next =>
      rw [Prod.mk.injEq] at h
      obtain ⟨hok, htr⟩ := h
      obtain ⟨hid, att, hlast, hatt, hfmt, hmem⟩ :=
        ih (nc + ITEM_CHOICES)
          (attemptOf generate getContext preferences meal nc).llm_output id
          (pickLoop generate getContext preferences meal n (nc + ITEM_CHOICES)
            (attemptOf generate getContext preferences meal nc).llm_output).2
          (by rw [← hok])
      have htne : (pickLoop generate getContext preferences meal n (nc + ITEM_CHOICES)
          (attemptOf generate getContext preferences meal nc).llm_output).2 ≠ [] := by
        intro hnil
        rw [hnil] at hlast
        simp at hlast
      obtain ⟨x, xs, hxs⟩ := List.exists_cons_of_ne_nil htne
      refine ⟨hid, att, ?_, hatt, hfmt, hmem⟩
      rw [← htr, hxs, List.getLast?_cons_cons]
      rw [hxs] at hlast
      exact hlast

/-- C1: whenever `__pick_menu_item` returns an id, that id is positive, is
the value parsed from the raw backend output of the attempt that produced
it (the last attempt), and is a member of the candidate id list offered to
the backend in that same attempt; a parsed id that is non-positive or
outside the attempt's offered ids is never returned. -/
theorem pick_menu_item_valid (generate : String → String → String)
    (getContextFn : String → String → Int → Nat → String × List Int)
    (preferences allergens weekday : String) (meal_number : Nat)
    (id : Int) (trace : List Attempt)
    (h : pick_menu_item generate getContextFn preferences allergens weekday
      meal_number = (.ok id, trace)) :
    0 < id ∧ ∃ meal order_time,
      get_meal_and_order_time meal_number = .ok (meal, order_time) ∧
      ∃ att, trace.getLast? = some att ∧
        att.item_ids = (getContextFn allergens weekday order_time att.num_choices).2 ∧
        att.llm_output = generate SYSTEM_TEMPLATE (buildPrompt preferences meal
          (getContextFn allergens weekday order_time att.num_choices).1) ∧
        id = format_llm_output att.llm_output ∧ id ∈ att.item_ids := by
  unfold pick_menu_item at h
  cases hm : get_meal_and_order_time meal_number with
  | error e => rw [hm] at h; simp at h
  | ok p =>
    rw [hm] at h
    obtain ⟨meal, order_time⟩ := p
    obtain ⟨hid, att, hlast, hatt, hfmt, hmem⟩ :=
      pickLoop_ok generate (fun n => getContextFn allergens weekday order_time n)
        preferences meal MAX_LLM_TRIES ITEM_CHOICES "" id trace h
    refine ⟨hid, meal, order_time, rfl, att, hlast, ?_, ?_, hfmt, hmem⟩
    · exact congrArg Attempt.item_ids hatt
    · exact congrArg Attempt.llm_output hatt

/-- Witness for C1 on the spec's scenario: backend says "I recommend item
105 for you.", offered ids {100, 105, 110}. -/
theorem pick_menu_item_valid_witness :
    (0 : Int) < 105 ∧ ∃ meal order_time,
      get_meal_and_order_time 3 = .ok (meal, order_time) ∧
      ∃ att, ([(⟨10, [100, 105, 110],
          "I recommend item 105 for you."⟩ : Attempt)]).getLast? = some att ∧
        att.item_ids = ((fun (_ _ : String) (_ : Int) (_ : Nat) =>
          ("C", [(100 : Int), 105, 110])) "" "Mon" order_time att.num_choices).2 ∧
        att.llm_output = (fun (_ _ : String) => "I recommend item 105 for you.")
          SYSTEM_TEMPLATE (buildPrompt "" meal ((fun (_ _ : String) (_ : Int) (_ : Nat) =>
            ("C", [(100 : Int), 105, 110])) "" "Mon" order_time att.num_choices).1) ∧
        (105 : Int) = format_llm_output att.llm_output ∧
        (105 : Int) ∈ att.item_ids :=
  pick_menu_item_valid (fun _ _ => "I recommend item 105 for you.")
    (fun _ _ _ _ => ("C", [100, 105, 110])) "" "" "Mon" 3 105
    [⟨10, [100, 105, 110], "I recommend item 105 for you."⟩] rfl

/-- C2: when validation fails on every attempt, `__pick_menu_item` performs
exactly `MAX_LLM_TRIES = 3` attempts, whose requested sample sizes are
`ITEM_CHOICES * 1, * 2, * 3` (one base increment added after each failure),
and returns the fatal `RuntimeError` whose message embeds the third (last)
attempt's raw backend output; and (second conjunct) a slot whose Oracle
query fails fatally aborts `update_menu`'s day loop immediately with that
error — the remaining slots and days are not processed. -/
theorem pick_menu_item_retry_policy (generate : String → String → String)
    (getContextFn : String → String → Int → Nat → String × List Int)
    (preferences allergens weekday : String) (meal_number : Nat)
    (meal : String) (order_time : Int)
    (hm : get_meal_and_order_time meal_number = .ok (meal, order_time))
    (hFail : ∀ k, k < MAX_LLM_TRIES →
      ¬(0 < format_llm_output (attemptOf generate
            (fun n => getContextFn allergens weekday order_time n) preferences meal
            (ITEM_CHOICES * (k + 1))).llm_output ∧
        format_llm_output (attemptOf generate
            (fun n => getContextFn allergens weekday order_time n) preferences meal
            (ITEM_CHOICES * (k + 1))).llm_output ∈
          (attemptOf generate (fun n => getContextFn allergens weekday order_time n)
            preferences meal (ITEM_CHOICES * (k + 1))).item_ids)) :
    (pick_menu_item generate getContextFn preferences allergens weekday meal_number =
      (.error (failMessage (attemptOf generate
          (fun n => getContextFn allergens weekday order_time n) preferences meal
          (ITEM_CHOICES * 3)).llm_output),
       [attemptOf generate (fun n => getContextFn allergens weekday order_time n)
          preferences meal (ITEM_CHOICES * 1),
        attemptOf generate (fun n => getContextFn allergens weekday order_time n)
          preferences meal (ITEM_CHOICES * 2),
        attemptOf generate (fun n => getContextFn allergens weekday order_time n)
          preferences meal (ITEM_CHOICES * 3)])) ∧
    (∀ (pickFn : String → Nat → Except String Int)
        (menu date next_date weekday2 : String) (m : Nat) (ms : List Nat)
        (days : Nat) (e : String),
      menuContains menu date m = false → pickFn weekday2 m = .error e →
      update_menu_days pickFn (m :: ms) (days + 1) menu date next_date weekday2 =
        .error e) := by
  constructor
  · have h1 := hFail 0 (by decide)
    have h2 := hFail 1 (by decide)
    have h3 := hFail 2 (by decide)
    rw [show ITEM_CHOICES * (0 + 1) = ITEM_CHOICES from by ring] at h1
    rw [show ITEM_CHOICES * (1 + 1) = ITEM_CHOICES + ITEM_CHOICES from by ring] at h2
    rw [show ITEM_CHOICES * (2 + 1) = ITEM_CHOICES + ITEM_CHOICES + ITEM_CHOICES
        from by ring] at h3
    unfold pick_menu_item
    rw [hm]
    dsimp only []
    rw [show ITEM_CHOICES * 1 = ITEM_CHOICES from by ring,
        show ITEM_CHOICES * 2 = ITEM_CHOICES + ITEM_CHOICES from by ring,
        show ITEM_CHOICES * 3 = ITEM_CHOICES + ITEM_CHOICES + ITEM_CHOICES
          from by ring]
    rw [show MAX_LLM_TRIES = 2 + 1 from rfl]
    rw [pickLoop]
    dsimp only []
    rw [if_neg h1]
    rw [show (2 : Nat) = 1 + 1 from rfl, pickLoop]
    dsimp only []
    rw [if_neg h2]
    rw [show (1 : Nat) = 0 + 1 from rfl, pickLoop]
    dsimp only []
    rw [if_neg h3]
    rw [pickLoop]
  · intro pickFn menu date next_date weekday2 m ms days e hnc hpe
    rw [update_menu_days, fillSlots]
    rw [if_neg (by rw [hnc]; exact Bool.false_ne_true)]
    rw [hpe]

/-- Witness for C2: a backend that always answers "999" against offered ids
{1, 2} fails all three attempts; and a one-day `update_menu_days` run whose
Oracle errors aborts with that error. -/
theorem pick_menu_item_retry_policy_witness :
    (pick_menu_item (fun _ _ => "999") (fun _ _ _ _ => ("C", [1, 2]))
        "" "" "Mon" 1 =
      (.error (failMessage "999"),
       [⟨10, [1, 2], "999"⟩, ⟨20, [1, 2], "999"⟩, ⟨30, [1, 2], "999"⟩])) ∧
    update_menu_days (fun _ _ => .error "LLM failed") [3] 1 ""
      "2025-10-12" "2025-10-13" "Sun" = .error "LLM failed" := by
  have h := pick_menu_item_retry_policy (fun _ _ => "999")
    (fun _ _ _ _ => ("C", [1, 2])) "" "" "Mon" 1 "breakfast" 1000 rfl (by decide)
  exact ⟨h.1, h.2 (fun _ _ => .error "LLM failed") "" "2025-10-12" "2025-10-13"
    "Sun" 3 [] 0 "LLM failed" (by decide) rfl⟩

/-- A day whose slots are all already present in the plan changes nothing
and performs no Oracle query. -/
theorem fillSlots_covered (pickFn : String → Nat → Except String Int)
    (date weekday : String) :
    ∀ (meals : List Nat) (menu : String),
      (∀ m ∈ meals, menuContains menu date m = true) →
      fillSlots pickFn date weekday meals menu = .ok (menu, 0) := by
  intro meals
  induction meals with
  | nil => intro menu _; rw [fillSlots]
  | cons m ms ih =>
    intro menu h
    rw [fillSlots, if_pos (h m (by simp))]
    exact ih menu (fun m' hm' => h m' (by simp [hm']))

/-- A true `coveredRun` includes the success of the first
`get_weekday_and_increment` call. -/
theorem coveredRun_gwai_ok (menu : String) (meals : List Nat) (date : String)
    (days : Nat) (h : coveredRun menu meals date days = true) :
    ∃ p, get_weekday_and_increment date = .ok p := by
  cases days with
  | zero =>
    rw [coveredRun] at h
    cases hg : get_weekday_and_increment date with
    | ok p => exact ⟨p, rfl⟩
    | error e => rw [hg] at h; simp at h
  | succ d =>
    rw [coveredRun, Bool.and_eq_true] at h
    cases hg : get_weekday_and_increment date with
    | ok p => exact ⟨p, rfl⟩
    | error e => rw [hg] at h; simp at h

/-- The day loop over a fully covered run reproduces the input plan with no
Oracle query. -/
theorem update_menu_days_covered (pickFn : String → Nat → Except String Int)
    (meals : List Nat) :
    ∀ (days : Nat) (menu date next_date weekday : String),
      get_weekday_and_increment date = .ok (next_date, weekday) →
      coveredRun menu meals date days = true →
      update_menu_days pickFn meals days menu date next_date weekday =
        .ok (menu, 0) := by
  intro days
  induction days with
  | zero => intro menu date nd wd _ _; rw [update_menu_days]
  | succ d ih =>
    intro menu date nd wd hg hc
    rw [coveredRun, Bool.and_eq_true] at hc
    obtain ⟨hall, hrest⟩ := hc
    rw [hg] at hrest
    dsimp only [] at hrest
    rw [update_menu_days]
    rw [fillSlots_covered pickFn date wd meals menu
      (fun m hm => List.all_eq_true.mp hall m hm)]
    obtain ⟨⟨nd2, wd2⟩, hg2⟩ := coveredRun_gwai_ok menu meals nd d hrest
    rw [hg2]
    dsimp only []
    rw [ih menu nd nd2 wd2 hg2 hrest]

/-- C5: plan assembly is idempotent over already-filled slots.  First
conjunct: when every `(date, slot)` target of the run is already present in
the plan (and the calendar steps succeed), `update_menu` returns the plan
unchanged, with zero Oracle queries and an unchanged catalog.  Second
conjunct: an individual already-present `(date, slot)` is skipped outright —
the slot loop continues as if the slot were not requested, with no Oracle
query for it. -/
theorem update_menu_idempotent (g : MenuGenerator)
    (generate : String → String → String) (sample : List Nat → Nat → List Nat)
    (menu preferences allergens date : String) (meal_numbers : List Nat)
    (number_of_days : Nat) (goal : String)
    (hcov : coveredRun menu meal_numbers date number_of_days = true) :
    (g.update_menu generate sample menu preferences allergens date meal_numbers
        number_of_days goal = .ok (menu, 0, g)) ∧
    (∀ (pickFn : String → Nat → Except String Int) (d wd : String) (m : Nat)
        (ms : List Nat) (menu2 : String),
      menuContains menu2 d m = true →
      fillSlots pickFn d wd (m :: ms) menu2 = fillSlots pickFn d wd ms menu2) := by
  constructor
  · unfold MenuGenerator.update_menu
    obtain ⟨⟨nd, wd⟩, hg⟩ :=
      coveredRun_gwai_ok menu meal_numbers date number_of_days hcov
    rw [hg]
    dsimp only []
    rw [update_menu_days_covered _ meal_numbers number_of_days menu date nd wd hg hcov]
  · intro pickFn d wd m ms menu2 hc
    rw [fillSlots, if_pos hc]

/-- Witness for C5: a two-day, two-slot run whose plan already contains all
four entries is returned unchanged with zero Oracle calls, and a single
covered slot is skipped. -/
theorem update_menu_idempotent_witness :
    (MenuGenerator.update_menu ⟨[], []⟩ (fun _ _ => "") (fun _ _ => [])
        "[2025-10-12,7,1],[2025-10-12,8,3],[2025-10-13,9,1],[2025-10-13,4,3]"
        "" "" "2025-10-12" [1, 3] 2 "" =
      .ok ("[2025-10-12,7,1],[2025-10-12,8,3],[2025-10-13,9,1],[2025-10-13,4,3]",
           0, ⟨[], []⟩)) ∧
    (fillSlots (fun _ _ => .error "X") "2025-10-12" "Sun" [1]
        "[2025-10-12,7,1]" =
      fillSlots (fun _ _ => .error "X") "2025-10-12" "Sun" [] "[2025-10-12,7,1]") := by
  have h := update_menu_idempotent ⟨[], []⟩ (fun _ _ => "") (fun _ _ => [])
    "[2025-10-12,7,1],[2025-10-12,8,3],[2025-10-13,9,1],[2025-10-13,4,3]"
    "" "" "2025-10-12" [1, 3] 2 "" (by decide)
  exact ⟨h.1, h.2 (fun _ _ => .error "X") "2025-10-12" "Sun" 1 []
    "[2025-10-12,7,1]" (by decide)⟩

/-- C9: the catalog snapshot is never mutated.  The two filter stages are
pure row selections (their output is a sublist of their input), and any
successful `update_menu` call returns the generator state it started from —
the merge materialises a fresh frame, so the in-place frame operations the
source performs never touch `self.menu_items` / `self.restaurants`. -/
theorem catalog_immutable :
    (∀ (tbl : List CRow) (weekday : String) (t : Int),
      (filter_closed_restaurants tbl weekday t).Sublist tbl) ∧
    (∀ (items : List CRow) (allergens : String),
      (filter_allergens items allergens).Sublist items) ∧
    (∀ (g : MenuGenerator) (generate : String → String → String)
        (sample : List Nat → Nat → List Nat)
        (menu preferences allergens date goal menu2 : String)
        (meal_numbers : List Nat) (number_of_days calls : Nat)
        (g2 : MenuGenerator),
      g.update_menu generate sample menu preferences allergens date meal_numbers
          number_of_days goal = .ok (menu2, calls, g2) →
      g2 = g ∧ g2.menu_items = g.menu_items ∧ g2.restaurants = g.restaurants) := by
  refine ⟨?_, ?_, ?_⟩
  · intro tbl weekday t
    exact List.filter_sublist tbl
  · intro items allergens
    unfold filter_allergens
    split
    · exact List.Sublist.refl items
    · exact List.filter_sublist items
  · intro g generate sample menu preferences allergens date goal menu2 mns days
      calls g2 h
    unfold MenuGenerator.update_menu at h
    dsimp only [] at h
    split at h
    · exact Except.noConfusion h
    · split at h
      · exact Except.noConfusion h
      · rw [Except.ok.injEq, Prod.mk.injEq, Prod.mk.injEq] at h
        obtain ⟨-, -, hg⟩ := h
        subst hg
        exact ⟨rfl, rfl, rfl⟩

/-- Witness for C9: concrete filter runs and a zero-day `update_menu` call
that returns the same one-item catalog. -/
theorem catalog_immutable_witness :
    ((filter_closed_restaurants [dummyCRow] "Mon" 1200).Sublist [dummyCRow]) ∧
    ((filter_allergens [dummyCRow] "peanuts").Sublist [dummyCRow]) ∧
    ((⟨[⟨1, 1, "n", "d", "p", "c", none⟩], [⟨1, .falsy⟩]⟩ : MenuGenerator) =
        ⟨[⟨1, 1, "n", "d", "p", "c", none⟩], [⟨1, .falsy⟩]⟩ ∧
      (⟨[⟨1, 1, "n", "d", "p", "c", none⟩], [⟨1, .falsy⟩]⟩ :
          MenuGenerator).menu_items = [⟨1, 1, "n", "d", "p", "c", none⟩] ∧
      (⟨[⟨1, 1, "n", "d", "p", "c", none⟩], [⟨1, .falsy⟩]⟩ :
          MenuGenerator).restaurants = [⟨1, .falsy⟩]) :=
  ⟨catalog_immutable.1 [dummyCRow] "Mon" 1200,
   catalog_immutable.2.1 [dummyCRow] "peanuts",
   catalog_immutable.2.2 ⟨[⟨1, 1, "n", "d", "p", "c", none⟩], [⟨1, .falsy⟩]⟩
     (fun _ _ => "") (fun _ _ => []) "" "" "" "2025-10-12" "" "" [] 0 0
     ⟨[⟨1, 1, "n", "d", "p", "c", none⟩], [⟨1, .falsy⟩]⟩ rfl⟩

/-! ## Round trip of the plan serialization (C6) -/

theorem not_ws_of_digit (c : Char) (h : c.isDigit = true) :
    c.isWhitespace = false := by
  cases hws : c.isWhitespace
  · rfl
  · simp only [Char.isWhitespace, Bool.or_eq_true, decide_eq_true_eq] at hws
    rcases hws with ((h1 | h1) | h1) | h1 <;> subst h1 <;>
      exact absurd h (by decide)

theorem dropSpaces_cons_not_ws {c : Char} (l : List Char)
    (h : c.isWhitespace = false) : dropSpaces (c :: l) = c :: l := by
  unfold dropSpaces
  rw [List.dropWhile_cons_of_neg (by simp [h])]

theorem scanEntries_nil : scanEntries [] = [] := by
  rw [scanEntries]

theorem scanEntries_cons_ne (c : Char) (cs : List Char) (h : c ≠ '[') :
    scanEntries (c :: cs) = scanEntries cs := by
  rw [scanEntries, if_neg h]

theorem scanEntries_bracket_some (cs : List Char) (g : EntryGroups)
    (rest : List Char) (hm : matchAfterBracket cs = some (g, rest)) :
    scanEntries ('[' :: cs) = g :: scanEntries rest := by
  rw [scanEntries, if_pos rfl]
  split
  next g2 rest2 hm2 =>
    rw [hm] at hm2
    rw [Option.some.injEq, Prod.mk.injEq] at hm2
    rw [hm2.1, hm2.2]
  next hm2 =>
    rw [hm] at hm2
    cases hm2

theorem scanEntries_no_bracket (cs : List Char) (h : ∀ c ∈ cs, c ≠ '[') :
    scanEntries cs = [] := by
  induction cs with
  | nil => exact scanEntries_nil
  | cons c cs ih =>
    rw [scanEntries_cons_ne c cs (h c (by simp))]
    exact ih (fun x hx => h x (by simp [hx]))

theorem takeDigitsN_exact :
    ∀ (ds rest : List Char), (∀ c ∈ ds, c.isDigit = true) →
      takeDigitsN ds.length (ds ++ rest) = some (ds, rest) := by
  intro ds
  induction ds with
  | nil => intro rest _; rfl
  | cons c cs ih =>
    intro rest h
    have hstep : takeDigitsN (c :: cs).length ((c :: cs) ++ rest) =
        if c.isDigit then
          (takeDigitsN cs.length (cs ++ rest)).map (fun p => (c :: p.1, p.2))
        else none := rfl
    rw [hstep, if_pos (h c (by simp)), ih rest (fun x hx => h x (by simp [hx]))]
    rfl

theorem takeWhile_digit_run (run : List Char) (c : Char) (rest : List Char)
    (hrd : ∀ x ∈ run, x.isDigit = true) (hc : c.isDigit = false) :
    (run ++ c :: rest).takeWhile Char.isDigit = run ∧
    (run ++ c :: rest).dropWhile Char.isDigit = c :: rest := by
  induction run with
  | nil =>
    constructor
    · rw [List.nil_append, List.takeWhile_cons_of_neg (by simp [hc])]
    · rw [List.nil_append, List.dropWhile_cons_of_neg (by simp [hc])]
  | cons r rs ih =>
    obtain ⟨iht, ihd⟩ := ih (fun x hx => hrd x (by simp [hx]))
    constructor
    · rw [List.cons_append, List.takeWhile_cons_of_pos (hrd r (by simp)), iht]
    · rw [List.cons_append, List.dropWhile_cons_of_pos (hrd r (by simp)), ihd]

theorem matchDateCs_wf (a b c d f g i j : Char) (tail : List Char)
    (ha : a.isDigit = true) (hb : b.isDigit = true) (hc : c.isDigit = true)
    (hd : d.isDigit = true) (hf : f.isDigit = true) (hg : g.isDigit = true)
    (hi : i.isDigit = true) (hj : j.isDigit = true) :
    matchDateCs (a :: b :: c :: d :: '-' :: f :: g :: '-' :: i :: j :: tail) =
      some ([a, b, c, d, '-', f, g, '-', i, j], tail) := by
  have h4 : takeDigitsN 4 ([a, b, c, d] ++
      ('-' :: f :: g :: '-' :: i :: j :: tail)) =
      some ([a, b, c, d], '-' :: f :: g :: '-' :: i :: j :: tail) := by
    have := takeDigitsN_exact [a, b, c, d] ('-' :: f :: g :: '-' :: i :: j :: tail)
      (by intro x hx; simp only [List.mem_cons, List.not_mem_nil, or_false] at hx
          rcases hx with h1 | h1 | h1 | h1 <;> subst h1 <;> assumption)
    simpa using this
  have h2a : takeDigitsN 2 ([f, g] ++ ('-' :: i :: j :: tail)) =
      some ([f, g], '-' :: i :: j :: tail) := by
    have := takeDigitsN_exact [f, g] ('-' :: i :: j :: tail)
      (by intro x hx; simp only [List.mem_cons, List.not_mem_nil, or_false] at hx
          rcases hx with h1 | h1 <;> subst h1 <;> assumption)
    simpa using this
  have h2b : takeDigitsN 2 ([i, j] ++ tail) = some ([i, j], tail) := by
    have := takeDigitsN_exact [i, j] tail
      (by intro x hx; simp only [List.mem_cons, List.not_mem_nil, or_false] at hx
          rcases hx with h1 | h1 <;> subst h1 <;> assumption)
    simpa using this
  unfold matchDateCs
  rw [show (a :: b :: c :: d :: '-' :: f :: g :: '-' :: i :: j :: tail) =
      [a, b, c, d] ++ ('-' :: f :: g :: '-' :: i :: j :: tail) from by simp]
  rw [h4]
  dsimp only []
  rw [if_pos rfl]
  rw [show (f :: g :: '-' :: i :: j :: tail : List Char) =
      [f, g] ++ ('-' :: i :: j :: tail) from by simp]
  rw [h2a]
  dsimp only []
  rw [if_pos rfl]
  rw [show (i :: j :: tail : List Char) = [i, j] ++ tail from by simp]
  rw [h2b]
  dsimp only []
  simp

theorem matchSlotTail_legacy (rest : List Char) :
    matchSlotTail (']' :: rest) = some (none, rest) := by
  unfold matchSlotTail
  rw [dropSpaces_cons_not_ws _ (by decide)]
  dsimp only []
  rw [if_pos rfl]

theorem matchSlotTail_slotted (sc : Char) (rest : List Char)
    (hsc : sc = '1' ∨ sc = '2' ∨ sc = '3') :
    matchSlotTail (',' :: sc :: ']' :: rest) = some (some sc, rest) := by
  have hscd : sc.isDigit = true := by
    rcases hsc with h | h | h <;> subst h <;> decide
  unfold matchSlotTail
  rw [dropSpaces_cons_not_ws _ (by decide)]
  dsimp only []
  rw [if_neg (by decide), if_pos rfl]
  rw [dropSpaces_cons_not_ws _ (not_ws_of_digit sc hscd)]
  dsimp only []
  rw [if_pos hsc]
  rw [dropSpaces_cons_not_ws _ (by decide)]
  dsimp only []
  rw [if_pos rfl]

theorem dateCharsWF_shape (l : List Char) (hwf : dateCharsWF l = true) :
    ∃ a b c d f g i j, l = [a, b, c, d, '-', f, g, '-', i, j] ∧
      a.isDigit = true ∧ b.isDigit = true ∧ c.isDigit = true ∧
      d.isDigit = true ∧ f.isDigit = true ∧ g.isDigit = true ∧
      i.isDigit = true ∧ j.isDigit = true := by
  unfold dateCharsWF at hwf
  split at hwf
  next a b c d e5 f g h8 i j =>
    simp only [Bool.and_eq_true, decide_eq_true_eq] at hwf
    obtain ⟨⟨⟨⟨⟨⟨⟨⟨⟨ha, hb⟩, hc⟩, hd⟩, he⟩, hf⟩, hg⟩, hh⟩, hi⟩, hj⟩ := hwf
    subst he
    subst hh
    exact ⟨a, b, c, d, f, g, i, j, rfl, ha, hb, hc, hd, hf, hg, hi, hj⟩
  next => cases hwf

theorem digitsOf_small (m : Nat) (h : m < 10) : digitsOf m = [digitChar m] := by
  unfold digitsOf digitsOfAux
  rw [if_pos h]

/-- The full pattern match on a serialized slotted entry body. -/
theorem matchAfterBracket_entry_slotted (a b c d f g i j : Char)
    (run : List Char) (sc : Char) (rest : List Char)
    (ha : a.isDigit = true) (hb : b.isDigit = true) (hc : c.isDigit = true)
    (hd : d.isDigit = true) (hf : f.isDigit = true) (hg : g.isDigit = true)
    (hi : i.isDigit = true) (hj : j.isDigit = true)
    (hrun : run ≠ []) (hrd : ∀ x ∈ run, x.isDigit = true)
    (hsc : sc = '1' ∨ sc = '2' ∨ sc = '3') :
    matchAfterBracket (a :: b :: c :: d :: '-' :: f :: g :: '-' :: i :: j ::
        ',' :: (run ++ ',' :: sc :: ']' :: rest)) =
      some (⟨[a, b, c, d, '-', f, g, '-', i, j], run, some sc⟩, rest) := by
  obtain ⟨rc, run', hrc⟩ := List.exists_cons_of_ne_nil hrun
  subst hrc
  have hrcd : rc.isDigit = true := hrd rc (by simp)
  have htw := takeWhile_digit_run (rc :: run') ',' (sc :: ']' :: rest) hrd (by decide)
  unfold matchAfterBracket
  rw [dropSpaces_cons_not_ws _ (not_ws_of_digit a ha)]
  rw [matchDateCs_wf a b c d f g i j _ ha hb hc hd hf hg hi hj]
  dsimp only []
  rw [dropSpaces_cons_not_ws _ (by decide)]
  dsimp only []
  rw [if_pos rfl]
  simp only [List.cons_append] at htw ⊢
  rw [dropSpaces_cons_not_ws _ (not_ws_of_digit rc hrcd)]
  rw [htw.1, htw.2]
  rw [if_neg (by simp)]
  rw [matchSlotTail_slotted sc rest hsc]

/-- The full pattern match on a serialized legacy (slot-less) entry body. -/
theorem matchAfterBracket_entry_legacy (a b c d f g i j : Char)
    (run : List Char) (rest : List Char)
    (ha : a.isDigit = true) (hb : b.isDigit = true) (hc : c.isDigit = true)
    (hd : d.isDigit = true) (hf : f.isDigit = true) (hg : g.isDigit = true)
    (hi : i.isDigit = true) (hj : j.isDigit = true)
    (hrun : run ≠ []) (hrd : ∀ x ∈ run, x.isDigit = true) :
    matchAfterBracket (a :: b :: c :: d :: '-' :: f :: g :: '-' :: i :: j ::
        ',' :: (run ++ ']' :: rest)) =
      some (⟨[a, b, c, d, '-', f, g, '-', i, j], run, none⟩, rest) := by
  obtain ⟨rc, run', hrc⟩ := List.exists_cons_of_ne_nil hrun
  subst hrc
  have hrcd : rc.isDigit = true := hrd rc (by simp)
  have htw := takeWhile_digit_run (rc :: run') ']' rest hrd (by decide)
  unfold matchAfterBracket
  rw [dropSpaces_cons_not_ws _ (not_ws_of_digit a ha)]
  rw [matchDateCs_wf a b c d f g i j _ ha hb hc hd hf hg hi hj]
  dsimp only []
  rw [dropSpaces_cons_not_ws _ (by decide)]
  dsimp only []
  rw [if_pos rfl]
  simp only [List.cons_append] at htw ⊢
  rw [dropSpaces_cons_not_ws _ (not_ws_of_digit rc hrcd)]
  rw [htw.1, htw.2]
  rw [if_neg (by simp)]
  rw [matchSlotTail_legacy rest]

theorem entryString_data (e : PlanEntry) :
    (entryString e).data = '[' :: (e.date.data ++ ',' ::
      (digitsOf e.itm_id ++ ',' :: (digitsOf e.meal ++ [']']))) := by
  simp [entryString, natStr, String.data_append]

theorem entryStringLegacy_data (e : PlanEntry) :
    (entryStringLegacy e).data = '[' :: (e.date.data ++ ',' ::
      (digitsOf e.itm_id ++ [']'])) := by
  simp [entryStringLegacy, natStr, String.data_append]

theorem digitChar_slot (m : Nat) (hm : m = 1 ∨ m = 2 ∨ m = 3) :
    digitChar m = '1' ∨ digitChar m = '2' ∨ digitChar m = '3' := by
  rcases hm with h1 | h1 | h1 <;> rw [h1] <;> decide

theorem mealOfGroup_digitChar (m : Nat) (hm : m = 1 ∨ m = 2 ∨ m = 3) :
    mealOfGroup (some (digitChar m)) = m := by
  rcases hm with h1 | h1 | h1 <;> rw [h1] <;> decide

/-- Scanning the serialized plan recovers one group per entry. -/
theorem scanEntries_planString :
    ∀ (es : List PlanEntry),
      (∀ e ∈ es, dateWF e.date = true ∧ (e.meal = 1 ∨ e.meal = 2 ∨ e.meal = 3)) →
      scanEntries (planString es).data =
        es.map (fun e =>
          (⟨e.date.data, digitsOf e.itm_id, some (digitChar e.meal)⟩ : EntryGroups)) := by
  intro es
  induction es with
  | nil =>
    intro _
    rw [show (planString []).data = [] from rfl, scanEntries_nil]
    rfl
  | cons e es ih =>
    intro h
    obtain ⟨hdw, hm⟩ := h e (by simp)
    obtain ⟨a, b, c, d, f, g, i, j, hdate, ha, hb, hc, hd2, hf, hg, hi, hj⟩ :=
      dateCharsWF_shape e.date.data hdw
    have hm10 : e.meal < 10 := by rcases hm with h1 | h1 | h1 <;> omega
    have hms := digitChar_slot e.meal hm
    cases es with
    | nil =>
      have hps : (planString [e]).data =
          '[' :: (a :: b :: c :: d :: '-' :: f :: g :: '-' :: i :: j ::
            ',' :: (digitsOf e.itm_id ++ ',' :: digitChar e.meal :: ']' :: ([] : List Char))) := by
        rw [show planString [e] = entryString e from by rw [planString]]
        rw [entryString_data, hdate, digitsOf_small e.meal hm10]
        simp
      rw [hps]
      rw [scanEntries_bracket_some _ _ _
        (matchAfterBracket_entry_slotted a b c d f g i j (digitsOf e.itm_id)
          (digitChar e.meal) [] ha hb hc hd2 hf hg hi hj (digitsOf_ne_nil _)
          (digitsOf_all_digit _) hms)]
      rw [scanEntries_nil]
      simp [hdate]
    | cons e2 es2 =>
      have hps : (planString (e :: e2 :: es2)).data =
          '[' :: (a :: b :: c :: d :: '-' :: f :: g :: '-' :: i :: j ::
            ',' :: (digitsOf e.itm_id ++ ',' :: digitChar e.meal :: ']' ::
              (',' :: (planString (e2 :: es2)).data))) := by
        rw [show planString (e :: e2 :: es2) =
            entryString e ++ "," ++ planString (e2 :: es2) from by rw [planString]]
        rw [String.data_append, String.data_append, entryString_data, hdate,
            digitsOf_small e.meal hm10]
        simp
      rw [hps]
      rw [scanEntries_bracket_some _ _ _
        (matchAfterBracket_entry_slotted a b c d f g i j (digitsOf e.itm_id)
          (digitChar e.meal) (',' :: (planString (e2 :: es2)).data)
          ha hb hc hd2 hf hg hi hj (digitsOf_ne_nil _)
          (digitsOf_all_digit _) hms)]
      rw [scanEntries_cons_ne _ _ (by decide)]
      rw [ih (fun x hx => h x (by simp [hx]))]
      simp [hdate]

/-- Scanning the legacy serialized plan recovers slot-less groups. -/
theorem scanEntries_planStringLegacy :
    ∀ (es : List PlanEntry),
      (∀ e ∈ es, dateWF e.date = true) →
      scanEntries (planStringLegacy es).data =
        es.map (fun e =>
          (⟨e.date.data, digitsOf e.itm_id, none⟩ : EntryGroups)) := by
  intro es
  induction es with
  | nil =>
    intro _
    rw [show (planStringLegacy []).data = [] from rfl, scanEntries_nil]
    rfl
  | cons e es ih =>
    intro h
    obtain ⟨a, b, c, d, f, g, i, j, hdate, ha, hb, hc, hd2, hf, hg, hi, hj⟩ :=
      dateCharsWF_shape e.date.data (h e (by simp))
    cases es with
    | nil =>
      have hps : (planStringLegacy [e]).data =
          '[' :: (a :: b :: c :: d :: '-' :: f :: g :: '-' :: i :: j ::
            ',' :: (digitsOf e.itm_id ++ ']' :: ([] : List Char))) := by
        rw [show planStringLegacy [e] = entryStringLegacy e from by rw [planStringLegacy]]
        rw [entryStringLegacy_data, hdate]
        simp
      rw [hps]
      rw [scanEntries_bracket_some _ _ _
        (matchAfterBracket_entry_legacy a b c d f g i j (digitsOf e.itm_id) []
          ha hb hc hd2 hf hg hi hj (digitsOf_ne_nil _) (digitsOf_all_digit _))]
      rw [scanEntries_nil]
      simp [hdate]
    | cons e2 es2 =>
      have hps : (planStringLegacy (e :: e2 :: es2)).data =
          '[' :: (a :: b :: c :: d :: '-' :: f :: g :: '-' :: i :: j ::
            ',' :: (digitsOf e.itm_id ++ ']' ::
              (',' :: (planStringLegacy (e2 :: es2)).data))) := by
        rw [show planStringLegacy (e :: e2 :: es2) =
            entryStringLegacy e ++ "," ++ planStringLegacy (e2 :: es2) from by
          rw [planStringLegacy]]
        rw [String.data_append, String.data_append, entryStringLegacy_data, hdate]
        simp
      rw [hps]
      rw [scanEntries_bracket_some _ _ _
        (matchAfterBracket_entry_legacy a b c d f g i j (digitsOf e.itm_id)
          (',' :: (planStringLegacy (e2 :: es2)).data)
          ha hb hc hd2 hf hg hi hj (digitsOf_ne_nil _) (digitsOf_all_digit _))]
      rw [scanEntries_cons_ne _ _ (by decide)]
      rw [ih (fun x hx => h x (by simp [hx]))]
      simp [hdate]

/-- Folding the scanned groups equals folding the structured entries. -/
theorem foldl_groups_slotted :
    ∀ (es : List PlanEntry) (init : List (String × List (Nat × Nat))),
      (∀ e ∈ es, e.meal = 1 ∨ e.meal = 2 ∨ e.meal = 3) →
      (es.map (fun e =>
          (⟨e.date.data, digitsOf e.itm_id, some (digitChar e.meal)⟩ : EntryGroups))).foldl
        (fun out g => addPlanItem out (String.mk g.date)
          (natOfDigits g.itm, mealOfGroup g.meal)) init =
      es.foldl (fun out e => addPlanItem out e.date (e.itm_id, e.meal)) init := by
  intro es
  induction es with
  | nil => intro init _; rfl
  | cons e es ih =>
    intro init h
    rw [List.map_cons, List.foldl_cons, List.foldl_cons]
    rw [show (natOfDigits (digitsOf e.itm_id), mealOfGroup (some (digitChar e.meal))) =
        (e.itm_id, e.meal) from by
      rw [natOfDigits_digitsOf, mealOfGroup_digitChar e.meal (h e (by simp))]]
    rw [show String.mk e.date.data = e.date from rfl]
    exact ih _ (fun x hx => h x (by simp [hx]))

/-- Legacy analogue: slot-less groups fold as slot-3 entries. -/
theorem foldl_groups_legacy :
    ∀ (es : List PlanEntry) (init : List (String × List (Nat × Nat))),
      (es.map (fun e =>
          (⟨e.date.data, digitsOf e.itm_id, none⟩ : EntryGroups))).foldl
        (fun out g => addPlanItem out (String.mk g.date)
          (natOfDigits g.itm, mealOfGroup g.meal)) init =
      (es.map (fun e => (⟨e.date, e.itm_id, 3⟩ : PlanEntry))).foldl
        (fun out e => addPlanItem out e.date (e.itm_id, e.meal)) init := by
  intro es
  induction es with
  | nil => intro init; rfl
  | cons e es ih =>
    intro init
    rw [List.map_cons, List.map_cons, List.foldl_cons, List.foldl_cons]
    rw [show (natOfDigits (digitsOf e.itm_id), mealOfGroup none) =
        (e.itm_id, 3) from by rw [natOfDigits_digitsOf]; rfl]
    rw [show String.mk e.date.data = e.date from rfl]
    exact ih _

/-- C6: round trip of the plan serialization.  Serializing plan entries as
comma-joined `[YYYY-MM-DD,<item id>,<slot>]` and re-parsing reproduces the
same date-keyed `(item id, slot)` mapping; legacy entries lacking the slot
number parse with slot 3 (dinner); and text without any bracketed entry
parses to the empty mapping (non-matching text is ignored). -/
theorem plan_roundtrip (es : List PlanEntry)
    (h : ∀ e ∈ es, dateWF e.date = true ∧ (e.meal = 1 ∨ e.meal = 2 ∨ e.meal = 3)) :
    parse_generated_menu (planString es) = groupEntries es ∧
    parse_generated_menu (planStringLegacy es) =
      groupEntries (es.map fun e => ⟨e.date, e.itm_id, 3⟩) ∧
    (∀ s : String, (∀ c ∈ s.data, c ≠ '[') → parse_generated_menu s = []) := by
  refine ⟨?_, ?_, ?_⟩
  · unfold parse_generated_menu groupEntries
    rw [scanEntries_planString es h]
    exact foldl_groups_slotted es [] (fun e he => (h e he).2)
  · unfold parse_generated_menu groupEntries
    rw [scanEntries_planStringLegacy es (fun e he => (h e he).1)]
    exact foldl_groups_legacy es []
  · intro s hs
    unfold parse_generated_menu
    rw [scanEntries_no_bracket s.data hs]
    rfl

/-- Witness for C6: a three-entry plan over two dates round-trips in both
the slotted and legacy forms, and bracket-free text parses to nothing. -/
theorem plan_roundtrip_witness :
    parse_generated_menu (planString
        [⟨"2025-10-12", 7, 1⟩, ⟨"2025-10-12", 8, 3⟩, ⟨"2025-10-13", 9, 2⟩]) =
      groupEntries
        [⟨"2025-10-12", 7, 1⟩, ⟨"2025-10-12", 8, 3⟩, ⟨"2025-10-13", 9, 2⟩] ∧
    parse_generated_menu (planStringLegacy
        [⟨"2025-10-12", 7, 1⟩, ⟨"2025-10-12", 8, 3⟩, ⟨"2025-10-13", 9, 2⟩]) =
      groupEntries
        (([⟨"2025-10-12", 7, 1⟩, ⟨"2025-10-12", 8, 3⟩,
           ⟨"2025-10-13", 9, 2⟩] : List PlanEntry).map
          fun e => ⟨e.date, e.itm_id, 3⟩) ∧
    parse_generated_menu "no plan here, just 105" = [] := by
  have h := plan_roundtrip
    [⟨"2025-10-12", 7, 1⟩, ⟨"2025-10-12", 8, 3⟩, ⟨"2025-10-13", 9, 2⟩]
    (by decide)
  exact ⟨h.1, h.2.1, h.2.2 "no plan here, just 105" (by decide)⟩

end MenuGen
